import Mathlib

/-!
# hashstats: ranking of duplicate-block buckets by size

A shallow embedding of `hashstats.c`: the comparator `cmp`, the by-size index
built by `insert_by_size` / `sort_by_size`, the report loop `print_by_size`,
the flag decoder `printf_file_block_flags`, the option parser and `main`.

Conventions of the embedding.

* C structures become Lean structures with the fields the program reads.
* The global variables of the program are the fields of `Globals`; functions
  that write them return the new value.
* `printf` output is a list of `Line`s, one constructor per format string.
* The intrusive red-black tree of `rbtree.h` is an inductive binary tree whose
  nodes carry the bucket that embeds them.
-/

namespace Hashstats

/-! ## Data model (`filerec.h`, `hash-tree.h`) -/

/-- One `unsigned char`. -/
abbrev Byte := Fin 256

/-- The fields of `struct filerec` that `hashstats.c` prints. -/
structure filerec where
  filename : String
  inum : Nat
  subvolid : Nat
  num_blocks : Nat
deriving DecidableEq, Repr

/-- The fields of `struct file_block` read by `print_by_size`:
`b_file`, `b_loff` (a 64-bit offset) and `b_flags` (an `unsigned int`). -/
structure file_block where
  b_file : filerec
  b_loff : Nat
  b_flags : Nat
deriving DecidableEq, Repr

/-- The bucket `struct dupe_blocks_list`: member count, file count, content
hash and the member list `dl_list` in its stored order.  The two embedded
tree links `dl_node` and `dl_by_size` are represented by the position of the
bucket in the primary enumeration and in the by-size tree. -/
structure dupe_blocks_list where
  dl_num_elem : Nat
  dl_num_files : Nat
  dl_hash : List Byte
  dl_list : List file_block
deriving DecidableEq, Repr

/-- The primary index `struct hash_tree`.  `buckets` is the sequence that
`rb_first(&tree->root)` / `rb_next` enumerate. -/
structure hash_tree where
  buckets : List dupe_blocks_list
  num_blocks : Nat
  num_hashes : Nat
deriving DecidableEq, Repr

/-! ## The comparator -/

/-- The libc `memcmp(a, b, n)` on the first `n` bytes: zero when they agree,
otherwise the difference of the first pair of bytes that differ (only its sign
is used).  Comparison ends where either modelled array ends. -/
def memcmp : List Byte → List Byte → Nat → Int
  | _, _, 0 => 0
  | [], _, _ + 1 => 0
  | _ :: _, [], _ + 1 => 0
  | a :: as, b :: bs, n + 1 =>
    if a = b then memcmp as bs n else (a.val : Int) - (b.val : Int)

/-- The comparator `cmp(tmp, dups)`; `digest_len` is the global of `csum.h`. -/
def cmp (digest_len : Nat) (tmp dups : dupe_blocks_list) : Int :=
  if tmp.dl_num_elem < dups.dl_num_elem then -1
  else if tmp.dl_num_elem > dups.dl_num_elem then 1
  else memcmp dups.dl_hash tmp.dl_hash digest_len

/-! ## The by-size tree -/

/-- Node colour of `rbtree.h`. -/
inductive rb_color where
  | RB_RED
  | RB_BLACK
deriving DecidableEq, Repr

/-- A (sub)tree of `struct rb_node`s linked through `dl_by_size`: `NULL`, or a
node with its colour, left child, the bucket `rb_entry` recovers from it, and
right child. -/
inductive rb_node where
  | NULL : rb_node
  | node (color : rb_color) (rb_left : rb_node) (entry : dupe_blocks_list)
      (rb_right : rb_node) : rb_node
deriving DecidableEq, Repr

/-- The value `RB_ROOT`: an empty tree. -/
def RB_ROOT : rb_node := rb_node.NULL

/-- Modelled from the spec: `rb_first` and `rb_next` of rbtree.c, which is not
among the sources.  Together they enumerate a tree by an in-order traversal
(section 4.1: "an in-order traversal yields Buckets ..."); `in_order t` is the
sequence of buckets `rb_first(t)`, `rb_next`, `rb_next`, ... visits in a tree
whose child and parent links agree, as they do as long as no insertion has
left the descent loop through `break`. -/
def in_order : rb_node → List dupe_blocks_list
  | rb_node.NULL => []
  | rb_node.node _ l e r => in_order l ++ e :: in_order r

/-- Modelled from the spec: `rb_link_node(&dups->dl_by_size, parent, p)` of
rbtree.h, which is not among the sources: the new node, with no children, is
stored in the slot `*p`.  Its colour bits are zero, which is red. -/
def rb_link_node (dups : dupe_blocks_list) : rb_node :=
  rb_node.node rb_color.RB_RED rb_node.NULL dups rb_node.NULL

/-- The descent loop of `insert_by_size` followed by `rb_link_node`: starting
with `p = &by_size.rb_node`, while `*p` is a node compare its bucket `tmp` with
`dups`; `ret < 0` continues in `rb_left`, `ret > 0` in `rb_right`, `ret == 0`
breaks.  At an empty slot the new childless node is stored there.

After `break`, `parent` is the node that compared equal and `p` its slot:
`rb_link_node` stores the new childless node in that slot with its parent link
on the displaced node, which keeps its right and left subtrees.  Trees here
have child links only, so the slot is given the shape `rb_first` / `rb_next`
enumerate from it: the new bucket, then through its parent link the displaced
bucket and the right subtree of that one; the left subtree of the displaced
node is no longer reached.  This is the traversal that follows a colliding
insertion into the slot of the root or of a left child.  Not described are:
insertions that come after the collision, a right-child slot (from which
`rb_next` comes back to a node it has visited), and a red displaced node (at
which `rb_insert_color` rotates). -/
def link_by_size (digest_len : Nat) (dups : dupe_blocks_list) : rb_node → rb_node
  | rb_node.NULL => rb_link_node dups
  | rb_node.node c l tmp r =>
    let ret := cmp digest_len tmp dups
    if ret < 0 then rb_node.node c (link_by_size digest_len dups l) tmp r
    else if ret > 0 then rb_node.node c l tmp (link_by_size digest_len dups r)
    else
      rb_node.node rb_color.RB_RED rb_node.NULL dups (rb_node.node c rb_node.NULL tmp r)

/-- The function `insert_by_size(dups)` on the global `by_size`: descent and link, then
`rb_insert_color(&dups->dl_by_size, &by_size)`.  `rb_insert_color` is defined
in rbtree.c, which is not among the sources; it is a parameter here, given the
bucket just linked and the tree. -/
def insert_by_size (rb_insert_color : dupe_blocks_list → rb_node → rb_node)
    (digest_len : Nat) (by_size : rb_node) (dups : dupe_blocks_list) : rb_node :=
  rb_insert_color dups (link_by_size digest_len dups by_size)

/-- The function `sort_by_size(tree)`: every bucket of the primary index, in the order
`rb_first` / `rb_next` enumerate it, is passed to `insert_by_size`.  The
result is the new value of the global `by_size`. -/
def sort_by_size (rb_insert_color : dupe_blocks_list → rb_node → rb_node)
    (digest_len : Nat) (tree : hash_tree) (by_size : rb_node) : rb_node :=
  tree.buckets.foldl (insert_by_size rb_insert_color digest_len) by_size

/-! ## Report output -/

/-- One piece of text written by the program, one constructor per `printf`
format (consecutive `printf`s that complete one row are one constructor),
carrying the values printed. -/
inductive Line where
  /-- The line `"hashstats %s\n"` of `usage`. -/
  | version : Line
  /-- The help text of `usage`, with `prog`. -/
  | help (prog : String) : Line
  /-- The four lines of `print_file_info`: file name, version, block size,
  `disk_files`, `disk_hashes`, `tree->num_blocks`, `tree->num_hashes`,
  `num_filerecs`. -/
  | file_info (fname : Option String) (major minor : Int) (disk_blocksize : Nat)
      (disk_files disk_hashes num_blocks num_hashes num_filerecs : Nat) : Line
  /-- The line `"Print all hashes\n"`. -/
  | print_all : Line
  /-- The line `"Print top %d hashes\n"`. -/
  | print_top (num_to_print : Int) : Line
  /-- The line `"Hash, # Blocks, # Files\n"`. -/
  | columns : Line
  /-- The ranked row of a bucket: digest, `", %u, %u\n"`. -/
  | bucket (dl_hash : List Byte) (dl_num_elem dl_num_files : Nat) : Line
  /-- The detail row of a member block: file name, `loff`, `lblock`, `flags`
  in hexadecimal, the decoded flags, newline. -/
  | block (filename : String) (loff : Nat) (lblock : Option Nat) (b_flags : Nat)
      (decoded : String) : Line
  /-- The heading of `print_filerecs`. -/
  | filerecs (num_filerecs : Nat) : Line
  /-- One row of `print_filerecs`. -/
  | file (inum num_blocks subvolid : Nat) (filename : String) : Line
deriving DecidableEq, Repr

/-- Modelled from the spec: the flag bits of hash-tree.h, which is not among
the sources.  Section 3 gives `flags` as a bitset over the closed set of tags
`SKIP_COMPARE`, `DEDUPED`, `HOLE`, one bit per tag in this order. -/
def FILE_BLOCK_SKIP_COMPARE : Nat := 0x0001

/-- Modelled from the spec: second flag bit of hash-tree.h (see
`FILE_BLOCK_SKIP_COMPARE`). -/
def FILE_BLOCK_DEDUPED : Nat := 0x0002

/-- Modelled from the spec: third flag bit of hash-tree.h (see
`FILE_BLOCK_SKIP_COMPARE`). -/
def FILE_BLOCK_HOLE : Nat := 0x0004

/-- The text `printf_file_block_flags(block)` writes. -/
def printf_file_block_flags (block : file_block) : String :=
  if block.b_flags = 0 then ""
  else
    "( "
      ++ (if block.b_flags &&& FILE_BLOCK_SKIP_COMPARE ≠ 0 then "skip_compare " else "")
      ++ (if block.b_flags &&& FILE_BLOCK_DEDUPED ≠ 0 then "deduped " else "")
      ++ (if block.b_flags &&& FILE_BLOCK_HOLE ≠ 0 then "hole " else "")
      ++ ")"

/-! ## Program state -/

/-- The global variables of `hashstats.c` that the report reads or writes.
The `int` flags only ever hold 0 or 1 and are booleans here. -/
structure Globals where
  blocksize : Nat
  version_only : Bool
  print_all_hashes : Bool
  print_blocks : Bool
  num_to_print : Int
  print_file_list : Bool
  serialize_fname : Option String
  by_size : rb_node
deriving DecidableEq, Repr

/-- The initial values of the globals. -/
def Globals.init : Globals where
  blocksize := 0
  version_only := false
  print_all_hashes := false
  print_blocks := false
  num_to_print := 10
  print_file_list := false
  serialize_fname := none
  by_size := RB_ROOT

/-- A 32-bit `int` result: the value reduced into `[-2^31, 2^31)`.  Used for
`--num_to_print`, which leaves the range only from `INT_MIN`. -/
def int_wrap (x : Int) : Int := (x + 2 ^ 31) % 2 ^ 32 - 2 ^ 31

/-- The expression `(unsigned long long)block->b_loff / blocksize`.  The
quotient is undefined in C when `blocksize` is zero, and the process does not
survive its evaluation: `none` marks that evaluation, and the embedding does
not describe the run from there on. -/
def lblock (b_loff blocksize : Nat) : Option Nat :=
  if blocksize = 0 then none else some (b_loff % 2 ^ 64 / blocksize)

/-- The detail row of one member block. -/
def block_row (blocksize : Nat) (block : file_block) : Line :=
  Line.block block.b_file.filename block.b_loff (lblock block.b_loff blocksize)
    block.b_flags (printf_file_block_flags block)

/-- The rows one iteration of the loop of `print_by_size` writes for the
bucket `dups`: its ranked row and, when `print_blocks` is set, one detail row
per entry of `dl_list` (`list_for_each_entry`). -/
def bucket_rows (g : Globals) (dups : dupe_blocks_list) : List Line :=
  Line.bucket dups.dl_hash dups.dl_num_elem dups.dl_num_files ::
    (if g.print_blocks then dups.dl_list.map (block_row g.blocksize) else [])

/-- The `while (1)` loop of `print_by_size` over the nodes still to visit,
with the current value of `num_to_print`; returns the rows written and the
final `num_to_print`.  `--num_to_print` is evaluated only when
`print_all_hashes` is off. -/
def print_by_size_loop (g : Globals) : List dupe_blocks_list → Int → List Line × Int
  | [], n => ([], n)
  | dups :: rest, n =>
    if g.print_all_hashes then
      let r := print_by_size_loop g rest n
      (bucket_rows g dups ++ r.1, r.2)
    else if int_wrap (n - 1) = 0 then
      (bucket_rows g dups, int_wrap (n - 1))
    else
      let r := print_by_size_loop g rest (int_wrap (n - 1))
      (bucket_rows g dups ++ r.1, r.2)

/-- The function `print_by_size()`: the two heading lines, then the loop from
`rb_first(&by_size)`.  Returns the output and the globals afterwards. -/
def print_by_size (g : Globals) : List Line × Globals :=
  let r := print_by_size_loop g (in_order g.by_size) g.num_to_print
  ((if g.print_all_hashes then Line.print_all else Line.print_top g.num_to_print)
      :: Line.columns :: r.1,
    { g with num_to_print := r.2 })

/-- The external collaborators as `main` sees them: the status of each
database call, the configuration `dbfile_get_config` stores, the primary index
`dbfile_read_all_hashes` fills, and the file records. -/
structure dbfile where
  init_csum_module : Int
  dbfile_open : Int
  dbfile_get_config : Int
  disk_blocksize : Nat
  disk_hashes : Nat
  disk_files : Nat
  major : Int
  minor : Int
  dbfile_read_all_hashes : Int
  tree : hash_tree
  filerec_list : List filerec
  num_filerecs : Nat
deriving DecidableEq, Repr

/-- The function `print_filerecs()`: a heading, then one row per file record. -/
def print_filerecs (db : dbfile) : List Line :=
  Line.filerecs db.num_filerecs ::
    db.filerec_list.map (fun f => Line.file f.inum f.num_blocks f.subvolid f.filename)

/-- The function `print_file_info(&tree)`: the header summary. -/
def print_file_info (g : Globals) (db : dbfile) : List Line :=
  [Line.file_info g.serialize_fname db.major db.minor db.disk_blocksize
    db.disk_files db.disk_hashes db.tree.num_blocks db.tree.num_hashes db.num_filerecs]

/-- The function `usage(prog)`: the version line and, unless `version_only`, the
help text. -/
def usage (g : Globals) (prog : String) : List Line :=
  if g.version_only then [Line.version] else [Line.version, Line.help prog]

/-! ## Options -/

/-- What one call of `getopt_long` with `"labn:?"` and the two long options
returns; for `-n` the value `atoi(optarg)`. -/
inductive getopt_result where
  | l
  | a
  | b
  | n (atoi_optarg : Int)
  | VERSION_OPTION
  | HELP_OPTION
  | unknown
deriving DecidableEq, Repr

/-- The command line as `parse_options` sees it: `argc`, `argv[0]`, the
results of the successive `getopt_long` calls, and the operands left from
`optind` on. -/
structure cmdline where
  argc : Nat
  prog : String
  opts : List getopt_result
  operands : List String
deriving DecidableEq, Repr

/-- The `while`/`switch` of `parse_options`; `true` in the first component
when a case returned 1. -/
def parse_options_loop : Globals → List getopt_result → Bool × Globals
  | g, [] => (false, g)
  | g, getopt_result.l :: cs => parse_options_loop { g with print_file_list := true } cs
  | g, getopt_result.a :: cs => parse_options_loop { g with print_all_hashes := true } cs
  | g, getopt_result.b :: cs => parse_options_loop { g with print_blocks := true } cs
  | g, getopt_result.n v :: cs => parse_options_loop { g with num_to_print := v } cs
  | g, getopt_result.VERSION_OPTION :: _ => (true, { g with version_only := true })
  | g, getopt_result.HELP_OPTION :: _ => (true, { g with version_only := false })
  | g, getopt_result.unknown :: _ => (true, { g with version_only := false })

/-- The function `parse_options(argc, argv)`: the status and the globals afterwards. -/
def parse_options (g : Globals) (cl : cmdline) : Int × Globals :=
  if cl.argc < 2 then (1, g)
  else
    let r := parse_options_loop g cl.opts
    if r.1 then (1, r.2)
    else
      match cl.operands with
      | [fname] => (0, { r.2 with serialize_fname := some fname })
      | _ => (1, r.2)

/-! ## `main` -/

/-- The constant `EINVAL` of errno.h. -/
def EINVAL : Int := 22

/-- The constant `ENOMEM` of errno.h. -/
def ENOMEM : Int := 12

/-- What a run of `main` leaves: the exit status, the output, and the final
globals. -/
structure Run where
  status : Int
  out : List Line
  globals : Globals
deriving DecidableEq, Repr

/-- The part of `main` after the options are parsed, from `init_csum_module`
on, with `g` the globals `parse_options` left. -/
def main_report (rb_insert_color : dupe_blocks_list → rb_node → rb_node)
    (digest_len : Nat) (g : Globals) (db : dbfile) : Run :=
  if db.init_csum_module ≠ 0 then ⟨ENOMEM, [], g⟩
  else if db.dbfile_open ≠ 0 then ⟨db.dbfile_open, [], g⟩
  else if db.dbfile_get_config ≠ 0 then ⟨db.dbfile_get_config, [], g⟩
  else
    let g1 := { g with blocksize := db.disk_blocksize }
    if db.dbfile_read_all_hashes ≠ 0 then ⟨db.dbfile_read_all_hashes, [], g1⟩
    else
      let info := print_file_info g1 db
      let core : List Line × Globals :=
        if g1.num_to_print ≠ 0 ∨ g1.print_all_hashes = true then
          print_by_size
            { g1 with by_size := sort_by_size rb_insert_color digest_len db.tree g1.by_size }
        else ([], g1)
      let files := if core.2.print_file_list then print_filerecs db else []
      ⟨db.dbfile_read_all_hashes, info ++ core.1 ++ files, core.2⟩

/-- The function `main(argc, argv)`: options first; on failure `usage` and
`EINVAL`, otherwise the report. -/
def main (rb_insert_color : dupe_blocks_list → rb_node → rb_node)
    (digest_len : Nat) (cl : cmdline) (db : dbfile) : Run :=
  let r := parse_options Globals.init cl
  if r.1 ≠ 0 then ⟨EINVAL, usage r.2 cl.prog, r.2⟩
  else main_report rb_insert_color digest_len r.2 db

/-! ## The ordering key of section 3 -/

/-- Byte-lexicographic `a < b` on hashes. -/
def hash_lt : List Byte → List Byte → Bool
  | [], [] => false
  | [], _ :: _ => true
  | _ :: _, [] => false
  | a :: as, b :: bs => decide (a < b) || (decide (a = b) && hash_lt as bs)

/-- The ordering relation of section 3: `A` precedes `B` when `A` has more
members, or as many and the byte-lexicographically smaller hash. -/
def precedes (A B : dupe_blocks_list) : Prop :=
  A.dl_num_elem > B.dl_num_elem ∨
    (A.dl_num_elem = B.dl_num_elem ∧ hash_lt A.dl_hash B.dl_hash = true)

instance (A B : dupe_blocks_list) : Decidable (precedes A B) := by
  unfold precedes; infer_instance

/-! ## A rebalancing step -/

/-- Modelled from the spec: one local repair of a red node with a red child
below a black node, by rotation and recolouring, as a balanced search tree
(section 4.1) performs it.  The order of the buckets is kept. -/
def rb_balance : rb_color → rb_node → dupe_blocks_list → rb_node → rb_node
  | rb_color.RB_BLACK,
      rb_node.node rb_color.RB_RED (rb_node.node rb_color.RB_RED a x b) y c, z, d =>
    rb_node.node rb_color.RB_RED (rb_node.node rb_color.RB_BLACK a x b) y
      (rb_node.node rb_color.RB_BLACK c z d)
  | rb_color.RB_BLACK,
      rb_node.node rb_color.RB_RED a x (rb_node.node rb_color.RB_RED b y c), z, d =>
    rb_node.node rb_color.RB_RED (rb_node.node rb_color.RB_BLACK a x b) y
      (rb_node.node rb_color.RB_BLACK c z d)
  | rb_color.RB_BLACK, a, x,
      rb_node.node rb_color.RB_RED (rb_node.node rb_color.RB_RED b y c) z d =>
    rb_node.node rb_color.RB_RED (rb_node.node rb_color.RB_BLACK a x b) y
      (rb_node.node rb_color.RB_BLACK c z d)
  | rb_color.RB_BLACK, a, x,
      rb_node.node rb_color.RB_RED b y (rb_node.node rb_color.RB_RED c z d) =>
    rb_node.node rb_color.RB_RED (rb_node.node rb_color.RB_BLACK a x b) y
      (rb_node.node rb_color.RB_BLACK c z d)
  | c, a, x, b => rb_node.node c a x b

/-- Modelled from the spec: the repair applied from the leaves up. -/
def rb_repair : rb_node → rb_node
  | rb_node.NULL => rb_node.NULL
  | rb_node.node c l e r => rb_balance c (rb_repair l) e (rb_repair r)

/-- Modelled from the spec: a stand-in for `rb_insert_color` of rbtree.c, which
is not among the sources: repair the red-red pair the new node may form, then
make the root black.  It is one function the parameter `rb_insert_color` of
`insert_by_size` can be instantiated with. -/
def rb_insert_color_rotate (_dups : dupe_blocks_list) (t : rb_node) : rb_node :=
  match rb_repair t with
  | rb_node.NULL => rb_node.NULL
  | rb_node.node _ l e r => rb_node.node rb_color.RB_BLACK l e r

/-! ## The descent loop on its own -/

/-- The descent loop of `insert_by_size` without the link: the bucket `tmp` at
which the loop was left through `break` (`ret == 0`), or `none` when it ended
at an empty slot. -/
def insert_by_size_break (digest_len : Nat) (dups : dupe_blocks_list) :
    rb_node → Option dupe_blocks_list
  | rb_node.NULL => none
  | rb_node.node _ l tmp r =>
    let ret := cmp digest_len tmp dups
    if ret < 0 then insert_by_size_break digest_len dups l
    else if ret > 0 then insert_by_size_break digest_len dups r
    else some tmp

/-! ## The build step on memory

The definitions above carry buckets as values, which no function can alter.
To state what `sort_by_size` writes, this section runs the same statements on
a memory of buckets with their two embedded tree nodes, one loop iteration at
a time. -/

/-- The words of a `struct rb_node` in memory: parent pointer and colour (the
word `__rb_parent_color`), `rb_left`, `rb_right`.  The pointer to a node is the
address of the bucket that embeds it; `none` is `NULL`. -/
structure rb_links where
  rb_parent : Option Nat
  color : rb_color
  rb_left : Option Nat
  rb_right : Option Nat
deriving DecidableEq, Repr

/-- A `struct dupe_blocks_list` in memory: the contents `dl_num_elem`,
`dl_num_files`, `dl_hash`, `dl_list`, the node `dl_node` of the primary by-hash
tree and the node `dl_by_size` of the by-size tree. -/
structure bucket_cell where
  contents : dupe_blocks_list
  dl_node : rb_links
  dl_by_size : rb_links
deriving DecidableEq, Repr

/-- The memory the build step can reach: the buckets by address, the root
`tree->root.rb_node` of the primary index and the global `by_size.rb_node`. -/
structure memory where
  cell : Nat → bucket_cell
  tree_root : Option Nat
  by_size : Option Nat

/-- A `struct rb_node **` into the by-size tree, the type of `p` in
`insert_by_size`: `&by_size.rb_node`, or the address of the `rb_left` or
`rb_right` word of the `dl_by_size` node of a bucket. -/
inductive rb_link where
  | root
  | left (i : Nat)
  | right (i : Nat)
deriving DecidableEq, Repr

/-- The value `*p`. -/
def memory.read (m : memory) : rb_link → Option Nat
  | rb_link.root => m.by_size
  | rb_link.left i => (m.cell i).dl_by_size.rb_left
  | rb_link.right i => (m.cell i).dl_by_size.rb_right

/-- The assignment `*p = v`. -/
def memory.store (m : memory) (p : rb_link) (v : Option Nat) : memory :=
  match p with
  | rb_link.root => { m with by_size := v }
  | rb_link.left i =>
    { m with
      cell := Function.update m.cell i
        { m.cell i with dl_by_size := { (m.cell i).dl_by_size with rb_left := v } } }
  | rb_link.right i =>
    { m with
      cell := Function.update m.cell i
        { m.cell i with dl_by_size := { (m.cell i).dl_by_size with rb_right := v } } }

/-- Modelled from the spec: `rb_link_node(&dups->dl_by_size, parent, p)` of
rbtree.h, which is not among the sources, on memory: the parent word of the
node becomes `parent` with the colour bits zero (red), both children `NULL`,
and `*p` the node. -/
def memory.rb_link_node (m : memory) (dups : Nat) (parent : Option Nat) (p : rb_link) :
    memory :=
  memory.store
    { m with
      cell := Function.update m.cell dups
        { m.cell dups with dl_by_size := ⟨parent, rb_color.RB_RED, none, none⟩ } }
    p (some dups)

/-- Where an execution of `sort_by_size` stands: the memory; the buckets
`rb_first` / `rb_next` have still to yield from the primary index; and, inside
a call `insert_by_size(dups)`, the locals `dups`, `p` and `parent`. -/
structure build_state where
  mem : memory
  rest : List Nat
  call : Option (Nat × rb_link × Option Nat)

/-- One step of `sort_by_size`.  Outside a call: with no node left the loop
has ended and nothing changes; otherwise `insert_by_size(dups)` is entered with
`p = &by_size.rb_node` and `parent = NULL`.  Inside a call, one iteration of
the descent loop: an empty `*p` ends it; at a node, `parent = *p`, `tmp` is its
bucket and `cmp(tmp, dups)` moves `p` to `rb_left` or `rb_right` or breaks.
When the loop is left, `rb_link_node` and `rb_insert_color` run and the call
returns.  `rb_insert_color` is defined in rbtree.c, which is not among the
sources: it is a parameter that takes the memory and the address of the bucket
whose node `dl_by_size` was linked, and returns the memory as it leaves it. -/
def sort_by_size_step
    (rb_insert_color : memory → Nat → memory)
    (digest_len : Nat) (s : build_state) : build_state :=
  match s.call with
  | none =>
    match s.rest with
    | [] => s
    | dups :: rest => { s with rest := rest, call := some (dups, rb_link.root, none) }
  | some (dups, p, parent) =>
    match s.mem.read p with
    | none =>
      { s with
        mem := rb_insert_color (s.mem.rb_link_node dups parent p) dups
        call := none }
    | some i =>
      let ret := cmp digest_len (s.mem.cell i).contents (s.mem.cell dups).contents
      if ret < 0 then { s with call := some (dups, rb_link.left i, some i) }
      else if ret > 0 then { s with call := some (dups, rb_link.right i, some i) }
      else
        { s with
          mem := rb_insert_color (s.mem.rb_link_node dups (some i) p) dups
          call := none }

/-- The state after `k` steps of `sort_by_size`. -/
def sort_by_size_run
    (rb_insert_color : memory → Nat → memory)
    (digest_len : Nat) : Nat → build_state → build_state
  | 0, s => s
  | k + 1, s =>
    sort_by_size_run rb_insert_color digest_len k (sort_by_size_step rb_insert_color digest_len s)

/-- The loop of `sort_by_size` has ended: no call is open and no node is
left. -/
def build_state.finished (s : build_state) : Prop := s.call = none ∧ s.rest = []

/-- The buckets of the by-size subtree at `node` in in-order, read off the
memory through the words `rb_left` and `rb_right`, to the depth `depth`. -/
def memory.in_order (m : memory) : Nat → Option Nat → List dupe_blocks_list
  | 0, _ => []
  | _ + 1, none => []
  | depth + 1, some i =>
    m.in_order depth (m.cell i).dl_by_size.rb_left ++
      (m.cell i).contents :: m.in_order depth (m.cell i).dl_by_size.rb_right

/-- A stand-in for `rb_insert_color` in examples: a node that was linked
without a parent is the root and is coloured black, as the kernel's
`rb_insert_color` does in that case; no rotation is made. -/
def rb_insert_color_root_black (m : memory) (node : Nat) : memory :=
  if (m.cell node).dl_by_size.rb_parent = none then
    { m with
      cell := Function.update m.cell node
        { m.cell node with
          dl_by_size := { (m.cell node).dl_by_size with color := rb_color.RB_BLACK } } }
  else m

/-! ## Slots of the by-size tree -/

/-- The slot reached from a tree by a path of child links, `false` for
`rb_left` and `true` for `rb_right`: with the empty path the tree itself (the
slot `by_size.rb_node`). -/
def rb_slot : List Bool → rb_node → rb_node
  | [], t => t
  | _ :: _, rb_node.NULL => rb_node.NULL
  | false :: path, rb_node.node _ l _ _ => rb_slot path l
  | true :: path, rb_node.node _ _ _ r => rb_slot path r

/-- The bucket of the node a slot holds, as `rb_entry` recovers it; `none` for
an empty slot. -/
def rb_entry : rb_node → Option dupe_blocks_list
  | rb_node.NULL => none
  | rb_node.node _ _ e _ => some e

/-! ## Reading the output -/

/-- The ranked row `print_by_size` writes for a bucket. -/
def bucket_line (dups : dupe_blocks_list) : Line :=
  Line.bucket dups.dl_hash dups.dl_num_elem dups.dl_num_files

/-- Whether a line is the ranked row of a bucket. -/
def Line.ranked : Line → Bool
  | Line.bucket _ _ _ => true
  | _ => false

/-- Whether a line is the detail row of a member block. -/
def Line.detail : Line → Bool
  | Line.block _ _ _ _ _ => true
  | _ => false

/-- The ranked rows of an output, in the order written. -/
def ranked_rows (out : List Line) : List Line := out.filter Line.ranked

/-- The database calls of `main` all returned 0. -/
def dbfile.loaded (db : dbfile) : Prop :=
  db.init_csum_module = 0 ∧ db.dbfile_open = 0 ∧ db.dbfile_get_config = 0 ∧
    db.dbfile_read_all_hashes = 0

instance (db : dbfile) : Decidable db.loaded := by
  unfold dbfile.loaded; infer_instance

/-! ## Flag sets -/

/-- The bitset of a subset of the three tags: the bitwise OR of the bits of
its members. -/
def encode_flags (skip_compare deduped hole : Bool) : Nat :=
  (if skip_compare then FILE_BLOCK_SKIP_COMPARE else 0) |||
    (if deduped then FILE_BLOCK_DEDUPED else 0) |||
    (if hole then FILE_BLOCK_HOLE else 0)

/-- The names of the members of a subset of the three tags, in declaration
order. -/
def tag_names (skip_compare deduped hole : Bool) : List String :=
  (if skip_compare then ["skip_compare"] else []) ++
    (if deduped then ["deduped"] else []) ++
    (if hole then ["hole"] else [])

/-- A list of names as the decoder lays it out: nothing for no name, otherwise
`"( "`, each name followed by a blank, `")"`. -/
def render_names (names : List String) : String :=
  if names = [] then "" else "( " ++ String.join (names.map (fun s => s ++ " ")) ++ ")"

/-- The status of the first database call of `main` that fails, 0 when none
does. -/
def dbfile.first_failure (db : dbfile) : Int :=
  if db.dbfile_open ≠ 0 then db.dbfile_open
  else if db.dbfile_get_config ≠ 0 then db.dbfile_get_config
  else db.dbfile_read_all_hashes

/-! ## Sample data -/

/-- The record of a file `name` holding `num_blocks` blocks. -/
def sample_file (name : String) (num_blocks : Nat) : filerec :=
  ⟨name, 257, 5, num_blocks⟩

/-- A bucket with the one-byte hash `hash` and `count` member blocks, all of
the file `name`, 4096 bytes apart and without flags. -/
def sample_bucket (name : String) (count : Nat) (hash : Byte) : dupe_blocks_list :=
  ⟨count, 1, [hash],
    (List.range count).map (fun i => ⟨sample_file name count, 4096 * i, 0⟩)⟩

/-- A database that loads: block size `blocksize`, primary index `tree`, file
records `files`. -/
def sample_db (blocksize : Nat) (tree : hash_tree) (files : List filerec) : dbfile where
  init_csum_module := 0
  dbfile_open := 0
  dbfile_get_config := 0
  disk_blocksize := blocksize
  disk_hashes := tree.num_blocks
  disk_files := files.length
  major := 2
  minor := 0
  dbfile_read_all_hashes := 0
  tree := tree
  filerec_list := files
  num_filerecs := files.length

/-- The scenario of section 8: counts 5, 5, 2 with hashes `0x01`, `0x02`,
`0x00`. -/
def scenario_tree : hash_tree :=
  ⟨[sample_bucket "a" 5 0x01, sample_bucket "b" 5 0x02, sample_bucket "c" 2 0x00], 12, 3⟩

/-- A database with the buckets of `scenario_tree` and block size 4096. -/
def scenario_db : dbfile :=
  sample_db 4096 scenario_tree [sample_file "a" 5, sample_file "b" 5, sample_file "c" 2]

/-- The command line `hashstats -n k hashfile`. -/
def scenario_cmdline (k : Int) : cmdline :=
  ⟨4, "hashstats", [getopt_result.n k], ["hashfile"]⟩

/-- The globals after parsing `hashstats -n k hashfile`. -/
def scenario_globals (k : Int) : Globals :=
  { Globals.init with num_to_print := k, serialize_fname := some "hashfile" }

/-- Two buckets that share the count 5 and the hash `0x01`. -/
def collision_tree : hash_tree :=
  ⟨[sample_bucket "a" 5 0x01, sample_bucket "b" 5 0x01], 10, 2⟩

/-- A database with the buckets of `collision_tree`. -/
def collision_db : dbfile :=
  sample_db 4096 collision_tree [sample_file "a" 5, sample_file "b" 5]

/-- A bucket of two member blocks of the file `a`, at offsets 0 and 4096, the
second one flagged `FILE_BLOCK_DEDUPED`. -/
def detail_bucket : dupe_blocks_list :=
  ⟨2, 1, [0x07], [⟨sample_file "a" 2, 0, 0⟩, ⟨sample_file "a" 2, 4096, 2⟩]⟩

/-- A database that reports block size 0, with the bucket `detail_bucket`. -/
def zero_blocksize_db : dbfile :=
  sample_db 0 ⟨[detail_bucket], 2, 1⟩ [sample_file "a" 2]

/-- The command line `hashstats -b hashfile`. -/
def detail_cmdline : cmdline := ⟨3, "hashstats", [getopt_result.b], ["hashfile"]⟩

/-- The globals of a run with `-b` on an index that holds `detail_bucket`, with
block size 4096. -/
def detail_globals : Globals :=
  { Globals.init with
    blocksize := 4096
    print_blocks := true
    by_size := rb_link_node detail_bucket }

/-- A database that loads, with five buckets. -/
def five_bucket_db : dbfile :=
  sample_db 4096
    ⟨[sample_bucket "a" 3 0x0a, sample_bucket "b" 9 0x0b, sample_bucket "c" 3 0x0c,
      sample_bucket "d" 4 0x0d, sample_bucket "e" 2 0x0e], 21, 5⟩
    [sample_file "a" 3, sample_file "b" 9, sample_file "c" 3, sample_file "d" 4,
      sample_file "e" 2]

/-- A database whose file opens but whose hashes cannot be read (status 5). -/
def unreadable_db : dbfile := { scenario_db with dbfile_read_all_hashes := 5 }

/-- A database that loads, with twelve buckets of counts 1 to 12, the bucket of
count `i + 1` having the hash byte `i`. -/
def twelve_bucket_db : dbfile :=
  sample_db 4096
    ⟨(List.range 12).map (fun i => sample_bucket "f" (i + 1) (Fin.ofNat i)), 78, 12⟩
    [sample_file "f" 78]

/-- The command line `hashstats hashfile`, without options. -/
def plain_cmdline : cmdline := ⟨2, "hashstats", [], ["hashfile"]⟩

/-- The buckets of `scenario_tree` as a primary index enumerates them in
another order. -/
def scenario_tree_reordered : hash_tree :=
  ⟨[sample_bucket "c" 2 0x00, sample_bucket "b" 5 0x02, sample_bucket "a" 5 0x01], 12, 3⟩

/-- A node that is in no tree. -/
def unlinked : rb_links := ⟨none, rb_color.RB_RED, none, none⟩

/-- The scenario of section 8 in memory: bucket `0x01` at address 0, `0x02` at
address 1, `0x00` at address 2 (and at every further address, which nothing
points to).  The primary tree, ordered by hash, has the root 0 with the
children 2 and 1, and `by_size` is empty. -/
def scenario_memory : memory where
  cell := fun i =>
    match i with
    | 0 => ⟨sample_bucket "a" 5 0x01, ⟨none, rb_color.RB_BLACK, some 2, some 1⟩, unlinked⟩
    | 1 => ⟨sample_bucket "b" 5 0x02, ⟨some 0, rb_color.RB_RED, none, none⟩, unlinked⟩
    | _ => ⟨sample_bucket "c" 2 0x00, ⟨some 0, rb_color.RB_RED, none, none⟩, unlinked⟩
  tree_root := some 0
  by_size := none

/-- The start of `sort_by_size` on `scenario_memory`: the primary index yields
the addresses 2, 0, 1, its buckets by ascending hash. -/
def scenario_start : build_state := ⟨scenario_memory, [2, 0, 1], none⟩

/-! ## Theorems -/

/-! ### The comparator and the ordering key -/

theorem hash_lt_irrefl (a : List Byte) : hash_lt a a = false := by
  induction a with
  | nil => rfl
  | cons x xs ih => simp [hash_lt, ih]

theorem hash_lt_trans : ∀ (a b c : List Byte),
    hash_lt a b = true → hash_lt b c = true → hash_lt a c = true
  | [], [], _, h, _ => by simp [hash_lt] at h
  | [], _ :: _, [], _, h => by simp [hash_lt] at h
  | [], _ :: _, _ :: _, _, _ => by simp [hash_lt]
  | _ :: _, [], _, h, _ => by simp [hash_lt] at h
  | _ :: _, _ :: _, [], _, h => by simp [hash_lt] at h
  | x :: xs, y :: ys, z :: zs, h1, h2 => by
    simp only [hash_lt, Bool.or_eq_true, Bool.and_eq_true, decide_eq_true_eq] at h1 h2 ⊢
    rcases h1 with h1 | ⟨h1, h1'⟩
    · rcases h2 with h2 | ⟨h2, _⟩
      · exact Or.inl (lt_trans h1 h2)
      · exact Or.inl (h2 ▸ h1)
    · rcases h2 with h2 | ⟨h2, h2'⟩
      · exact Or.inl (h1 ▸ h2)
      · exact Or.inr ⟨h1.trans h2, hash_lt_trans xs ys zs h1' h2'⟩

/-- The relation `hash_lt` is the lexicographic order on lists of bytes. -/
theorem hash_lt_iff_lt : ∀ a b : List Byte, hash_lt a b = true ↔ a < b
  | [], [] => by simp [hash_lt]
  | [], _ :: _ => by
    simp only [hash_lt, true_iff]
    exact List.Lex.nil
  | _ :: _, [] => by
    simp only [hash_lt, Bool.false_eq_true, false_iff]
    intro h; cases h
  | x :: xs, y :: ys => by
    simp only [hash_lt, Bool.or_eq_true, Bool.and_eq_true, decide_eq_true_eq,
      hash_lt_iff_lt xs ys]
    constructor
    · rintro (h | ⟨rfl, h⟩)
      · exact List.Lex.rel h
      · exact List.Lex.cons h
    · intro h
      cases h with
      | rel h => exact Or.inl h
      | cons h => exact Or.inr ⟨rfl, h⟩

/-- On hashes of `n` bytes `memcmp` is negative exactly below. -/
theorem memcmp_neg_iff : ∀ (n : Nat) (a b : List Byte), a.length = n → b.length = n →
    (memcmp a b n < 0 ↔ hash_lt a b = true)
  | 0, [], [], _, _ => by simp [memcmp, hash_lt]
  | n + 1, x :: xs, y :: ys, ha, hb => by
    have ih := memcmp_neg_iff n xs ys (by simpa using ha) (by simpa using hb)
    simp only [memcmp, hash_lt, Bool.or_eq_true, Bool.and_eq_true, decide_eq_true_eq]
    by_cases hxy : x = y
    · subst hxy; simp [ih]
    · simp only [hxy, if_false, false_and, or_false]
      rw [Fin.lt_def]; omega

/-- On hashes of `n` bytes `memcmp` is zero exactly on equal hashes. -/
theorem memcmp_eq_zero_iff : ∀ (n : Nat) (a b : List Byte), a.length = n → b.length = n →
    (memcmp a b n = 0 ↔ a = b)
  | 0, [], [], _, _ => by simp [memcmp]
  | n + 1, x :: xs, y :: ys, ha, hb => by
    have ih := memcmp_eq_zero_iff n xs ys (by simpa using ha) (by simpa using hb)
    simp only [memcmp, List.cons.injEq]
    by_cases hxy : x = y
    · subst hxy; simp [ih]
    · simp only [hxy, if_false, false_and, iff_false]
      have : x.val ≠ y.val := fun h => hxy (Fin.ext h)
      omega

/-- On hashes of `n` bytes `memcmp` is positive exactly above. -/
theorem memcmp_pos_iff : ∀ (n : Nat) (a b : List Byte), a.length = n → b.length = n →
    (0 < memcmp a b n ↔ hash_lt b a = true)
  | 0, [], [], _, _ => by simp [memcmp, hash_lt]
  | n + 1, x :: xs, y :: ys, ha, hb => by
    have ih := memcmp_pos_iff n xs ys (by simpa using ha) (by simpa using hb)
    simp only [memcmp, hash_lt, Bool.or_eq_true, Bool.and_eq_true, decide_eq_true_eq]
    by_cases hxy : x = y
    · subst hxy; simp [ih]
    · have hyx : ¬ y = x := fun h => hxy h.symm
      simp only [hxy, hyx, if_false, false_and, or_false]
      rw [Fin.lt_def]; omega

/-- The test `cmp(tmp, dups) < 0`, the branch to `rb_left`, is `dups` precedes `tmp`. -/
theorem cmp_neg_iff (n : Nat) (tmp dups : dupe_blocks_list)
    (ht : tmp.dl_hash.length = n) (hd : dups.dl_hash.length = n) :
    cmp n tmp dups < 0 ↔ precedes dups tmp := by
  unfold cmp precedes
  have h := memcmp_neg_iff n dups.dl_hash tmp.dl_hash hd ht
  split_ifs with h1 h2
  · constructor
    · intro _; exact Or.inl h1
    · intro _; decide
  · constructor
    · intro h3; exact absurd h3 (by decide)
    · rintro (h3 | ⟨h3, _⟩) <;> omega
  · rw [h]
    constructor
    · intro h3; exact Or.inr ⟨by omega, h3⟩
    · rintro (h3 | ⟨_, h3⟩)
      · omega
      · exact h3

/-- The test `cmp(tmp, dups) > 0`, the branch to `rb_right`, is `tmp` precedes `dups`. -/
theorem cmp_pos_iff (n : Nat) (tmp dups : dupe_blocks_list)
    (ht : tmp.dl_hash.length = n) (hd : dups.dl_hash.length = n) :
    0 < cmp n tmp dups ↔ precedes tmp dups := by
  unfold cmp precedes
  have h := memcmp_pos_iff n dups.dl_hash tmp.dl_hash hd ht
  split_ifs with h1 h2
  · constructor
    · intro h3; exact absurd h3 (by decide)
    · rintro (h3 | ⟨h3, _⟩) <;> omega
  · constructor
    · intro _; exact Or.inl h2
    · intro _; decide
  · rw [h]
    constructor
    · intro h3; exact Or.inr ⟨by omega, h3⟩
    · rintro (h3 | ⟨_, h3⟩)
      · omega
      · exact h3

/-- The test `cmp(tmp, dups) == 0`, the `break`, is equal counts and equal hashes. -/
theorem cmp_eq_zero_iff (n : Nat) (tmp dups : dupe_blocks_list)
    (ht : tmp.dl_hash.length = n) (hd : dups.dl_hash.length = n) :
    cmp n tmp dups = 0 ↔
      tmp.dl_num_elem = dups.dl_num_elem ∧ tmp.dl_hash = dups.dl_hash := by
  unfold cmp
  have h := memcmp_eq_zero_iff n dups.dl_hash tmp.dl_hash hd ht
  split_ifs with h1 h2
  · constructor
    · intro h3; exact absurd h3 (by decide)
    · rintro ⟨h3, _⟩; omega
  · constructor
    · intro h3; exact absurd h3 (by decide)
    · rintro ⟨h3, _⟩; omega
  · rw [h]
    constructor
    · intro h3; exact ⟨by omega, h3.symm⟩
    · rintro ⟨_, h3⟩; exact h3.symm

theorem precedes_trans {A B C : dupe_blocks_list} (h1 : precedes A B)
    (h2 : precedes B C) : precedes A C := by
  unfold precedes at *
  rcases h1 with h1 | ⟨h1, h1'⟩
  · rcases h2 with h2 | ⟨h2, _⟩
    · exact Or.inl (by omega)
    · exact Or.inl (by omega)
  · rcases h2 with h2 | ⟨h2, h2'⟩
    · exact Or.inl (by omega)
    · exact Or.inr ⟨by omega, hash_lt_trans _ _ _ h1' h2'⟩

theorem precedes_irrefl (A : dupe_blocks_list) : ¬ precedes A A := by
  unfold precedes
  rintro (h | ⟨_, h⟩)
  · omega
  · rw [hash_lt_irrefl] at h; exact absurd h (by decide)

/-! ### The by-size tree as a search tree -/

theorem in_order_rb_link_node (dups : dupe_blocks_list) :
    in_order (rb_link_node dups) = [dups] := rfl

/-- Linking a bucket that compares unequal to every bucket of the tree adds
exactly that bucket to the traversal. -/
theorem in_order_link_by_size_perm (n : Nat) (dups : dupe_blocks_list) :
    ∀ t : rb_node, (∀ x ∈ in_order t, cmp n x dups ≠ 0) →
      (in_order (link_by_size n dups t)).Perm (dups :: in_order t)
  | rb_node.NULL, _ => by simp [link_by_size, in_order, rb_link_node]
  | rb_node.node c l tmp r, h => by
    have hl : ∀ x ∈ in_order l, cmp n x dups ≠ 0 := fun x hx =>
      h x (by simp [in_order, hx])
    have hr : ∀ x ∈ in_order r, cmp n x dups ≠ 0 := fun x hx =>
      h x (by simp [in_order, hx])
    have ht : cmp n tmp dups ≠ 0 := h tmp (by simp [in_order])
    simp only [link_by_size]
    split_ifs with h1 h2
    · simp only [in_order]
      exact ((in_order_link_by_size_perm n dups l hl).append_right _).trans
        (by simp)
    · simp only [in_order]
      have ih := in_order_link_by_size_perm n dups r hr
      have : (in_order l ++ tmp :: in_order (link_by_size n dups r)).Perm
          (in_order l ++ tmp :: dups :: in_order r) :=
        List.Perm.append_left _ (List.Perm.cons _ ih)
      refine this.trans ?_
      rw [← List.cons_append]
      exact (List.perm_middle.trans (List.Perm.cons _ List.perm_middle)).trans
        ((List.Perm.swap _ _ _).trans (List.Perm.cons _ List.perm_middle.symm))
    · exact absurd (le_antisymm (not_lt.mp h2) (not_lt.mp h1)) ht

theorem mem_in_order_link_by_size (n : Nat) (dups : dupe_blocks_list) (t : rb_node)
    (h : ∀ x ∈ in_order t, cmp n x dups ≠ 0) (a : dupe_blocks_list) :
    a ∈ in_order (link_by_size n dups t) ↔ a = dups ∨ a ∈ in_order t := by
  rw [(in_order_link_by_size_perm n dups t h).mem_iff, List.mem_cons]

/-- Linking keeps the traversal ordered by `precedes`. -/
theorem in_order_link_by_size_sorted (n : Nat) (dups : dupe_blocks_list)
    (hd : dups.dl_hash.length = n) :
    ∀ t : rb_node, (∀ x ∈ in_order t, x.dl_hash.length = n) →
      (∀ x ∈ in_order t, cmp n x dups ≠ 0) →
      (in_order t).Pairwise precedes →
      (in_order (link_by_size n dups t)).Pairwise precedes
  | rb_node.NULL, _, _, _ => by simp [link_by_size, in_order, rb_link_node]
  | rb_node.node c l tmp r, hlen, h, hs => by
    have hl : ∀ x ∈ in_order l, cmp n x dups ≠ 0 := fun x hx =>
      h x (by simp [in_order, hx])
    have hr : ∀ x ∈ in_order r, cmp n x dups ≠ 0 := fun x hx =>
      h x (by simp [in_order, hx])
    have hlenl : ∀ x ∈ in_order l, x.dl_hash.length = n := fun x hx =>
      hlen x (by simp [in_order, hx])
    have hlenr : ∀ x ∈ in_order r, x.dl_hash.length = n := fun x hx =>
      hlen x (by simp [in_order, hx])
    have htl : tmp.dl_hash.length = n := hlen tmp (by simp [in_order])
    have ht : cmp n tmp dups ≠ 0 := h tmp (by simp [in_order])
    simp only [in_order, List.pairwise_append, List.pairwise_cons] at hs
    obtain ⟨hsl, ⟨htr, hsr⟩, hcross⟩ := hs
    simp only [link_by_size]
    split_ifs with h1 h2
    · have hdt : precedes dups tmp := (cmp_neg_iff n tmp dups htl hd).mp h1
      simp only [in_order, List.pairwise_append, List.pairwise_cons]
      refine ⟨in_order_link_by_size_sorted n dups hd l hlenl hl hsl, ⟨htr, hsr⟩, ?_⟩
      intro a ha b hb
      rcases (mem_in_order_link_by_size n dups l hl a).mp ha with rfl | ha
      · rcases List.mem_cons.mp hb with rfl | hb
        · exact hdt
        · exact precedes_trans hdt (htr b hb)
      · exact hcross a ha b hb
    · have htd : precedes tmp dups := (cmp_pos_iff n tmp dups htl hd).mp h2
      simp only [in_order, List.pairwise_append, List.pairwise_cons]
      refine ⟨hsl, ⟨?_, in_order_link_by_size_sorted n dups hd r hlenr hr hsr⟩, ?_⟩
      · intro b hb
        rcases (mem_in_order_link_by_size n dups r hr b).mp hb with rfl | hb
        · exact htd
        · exact htr b hb
      · intro a ha b hb
        rcases List.mem_cons.mp hb with rfl | hb
        · exact hcross a ha _ (List.mem_cons_self _ _)
        · rcases (mem_in_order_link_by_size n dups r hr b).mp hb with rfl | hb
          · exact precedes_trans (hcross a ha tmp (List.mem_cons_self _ _)) htd
          · exact hcross a ha b (List.mem_cons_of_mem _ hb)
    · exact absurd (le_antisymm (not_lt.mp h2) (not_lt.mp h1)) ht

/-- A bucket whose hash differs from that of `x` never compares equal to it. -/
theorem cmp_ne_zero_of_hash_ne (n : Nat) (x dups : dupe_blocks_list)
    (hx : x.dl_hash.length = n) (hd : dups.dl_hash.length = n)
    (hne : x.dl_hash ≠ dups.dl_hash) : cmp n x dups ≠ 0 := fun h =>
  hne ((cmp_eq_zero_iff n x dups hx hd).mp h).2

/-- The loop of `sort_by_size` from any ordered index whose hashes differ from
the incoming ones: afterwards the traversal is the old one plus the inserted
buckets, still ordered. -/
theorem foldl_insert_by_size_sorted_perm
    (rb_insert_color : dupe_blocks_list → rb_node → rb_node)
    (hreb : ∀ d t, in_order (rb_insert_color d t) = in_order t) (n : Nat) :
    ∀ (bs : List dupe_blocks_list) (t : rb_node),
      (∀ x ∈ in_order t, x.dl_hash.length = n) →
      (∀ b ∈ bs, b.dl_hash.length = n) →
      (in_order t).Pairwise precedes →
      (∀ x ∈ in_order t, ∀ b ∈ bs, x.dl_hash ≠ b.dl_hash) →
      bs.Pairwise (fun a b => a.dl_hash ≠ b.dl_hash) →
      (in_order (bs.foldl (insert_by_size rb_insert_color n) t)).Perm
          (bs ++ in_order t) ∧
        (in_order (bs.foldl (insert_by_size rb_insert_color n) t)).Pairwise precedes
  | [], t, _, _, hs, _, _ => by simpa using hs
  | b :: bs, t, hlt, hlb, hs, hne, hd => by
    have hb : b.dl_hash.length = n := hlb b (List.mem_cons_self _ _)
    have hcmp : ∀ x ∈ in_order t, cmp n x b ≠ 0 := fun x hx =>
      cmp_ne_zero_of_hash_ne n x b (hlt x hx) hb (hne x hx b (List.mem_cons_self _ _))
    have hmem : ∀ a, a ∈ in_order (insert_by_size rb_insert_color n t b) ↔
        a = b ∨ a ∈ in_order t := fun a => by
      unfold insert_by_size
      rw [hreb]; exact mem_in_order_link_by_size n b t hcmp a
    have hperm : (in_order (insert_by_size rb_insert_color n t b)).Perm
        (b :: in_order t) := by
      unfold insert_by_size
      rw [hreb]; exact in_order_link_by_size_perm n b t hcmp
    have hsorted : (in_order (insert_by_size rb_insert_color n t b)).Pairwise precedes := by
      unfold insert_by_size
      rw [hreb]; exact in_order_link_by_size_sorted n b hb t hlt hcmp hs
    rw [List.pairwise_cons] at hd
    have ih := foldl_insert_by_size_sorted_perm rb_insert_color hreb n bs
      (insert_by_size rb_insert_color n t b)
      (fun x hx => by
        rcases (hmem x).mp hx with rfl | hx
        · exact hb
        · exact hlt x hx)
      (fun x hx => hlb x (List.mem_cons_of_mem _ hx))
      hsorted
      (fun x hx y hy => by
        rcases (hmem x).mp hx with rfl | hx
        · exact hd.1 y hy
        · exact hne x hx y (List.mem_cons_of_mem _ hy))
      hd.2
    refine ⟨?_, ih.2⟩
    rw [List.foldl_cons]
    refine ih.1.trans ?_
    refine (List.Perm.append_left bs hperm).trans ?_
    exact List.perm_middle

/-! ### The rebalancing stand-in keeps the traversal -/

theorem in_order_rb_balance (c : rb_color) (l : rb_node) (e : dupe_blocks_list)
    (r : rb_node) : in_order (rb_balance c l e r) = in_order l ++ e :: in_order r := by
  unfold rb_balance
  split <;> simp [in_order]

theorem in_order_rb_repair : ∀ t : rb_node, in_order (rb_repair t) = in_order t
  | rb_node.NULL => rfl
  | rb_node.node c l e r => by
    simp [rb_repair, in_order_rb_balance, in_order, in_order_rb_repair l,
      in_order_rb_repair r]

theorem in_order_rb_insert_color_rotate (d : dupe_blocks_list) (t : rb_node) :
    in_order (rb_insert_color_rotate d t) = in_order t := by
  rw [← in_order_rb_repair t]
  unfold rb_insert_color_rotate
  cases rb_repair t <;> rfl

/-! ### The report loop -/

/-- With `print_all_hashes` set the loop writes the rows of every remaining
node and leaves `num_to_print` as it was. -/
theorem print_by_size_loop_all (g : Globals) (hall : g.print_all_hashes = true) :
    ∀ (nodes : List dupe_blocks_list) (n : Int),
      print_by_size_loop g nodes n = (nodes.flatMap (bucket_rows g), n)
  | [], n => rfl
  | d :: ds, n => by
    simp [print_by_size_loop, hall, print_by_size_loop_all g hall ds n]

/-! ### C1 -/

/-- C1: for buckets with pairwise distinct hashes, all of `digest_len` bytes,
`sort_by_size` from the empty index followed by the unlimited traversal of
`print_by_size` (`print_all_hashes` set) visits a permutation of the buckets in
which every consecutive pair `(A, B)` has `A.dl_num_elem > B.dl_num_elem`, or
equal counts and `A.dl_hash < B.dl_hash` byte-lexicographically. -/
theorem sort_by_size_ranks_distinct_hashes
    (rb_insert_color : dupe_blocks_list → rb_node → rb_node)
    (hreb : ∀ d t, in_order (rb_insert_color d t) = in_order t)
    (digest_len : Nat) (tree : hash_tree)
    (hlen : ∀ b ∈ tree.buckets, b.dl_hash.length = digest_len)
    (hdistinct : tree.buckets.Pairwise (fun a b => a.dl_hash ≠ b.dl_hash))
    (g : Globals) (hall : g.print_all_hashes = true)
    (hidx : g.by_size = sort_by_size rb_insert_color digest_len tree RB_ROOT) :
    ∃ ranked : List dupe_blocks_list,
      (print_by_size g).1 =
          Line.print_all :: Line.columns :: ranked.flatMap (bucket_rows g) ∧
        ranked.Perm tree.buckets ∧
        ranked.Chain' (fun A B => A.dl_num_elem > B.dl_num_elem ∨
          (A.dl_num_elem = B.dl_num_elem ∧ A.dl_hash < B.dl_hash)) := by
  have h := foldl_insert_by_size_sorted_perm rb_insert_color hreb digest_len
    tree.buckets RB_ROOT (by simp [RB_ROOT, in_order]) hlen
    (by simp [RB_ROOT, in_order]) (by simp [RB_ROOT, in_order]) hdistinct
  refine ⟨in_order g.by_size, ?_, ?_, ?_⟩
  · simp [print_by_size, print_by_size_loop_all g hall, hall]
  · rw [hidx]
    simpa [sort_by_size, RB_ROOT, in_order] using h.1
  · rw [hidx]
    refine List.Chain'.imp ?_ (List.Pairwise.chain' h.2)
    intro A B hAB
    unfold precedes at hAB
    rw [hash_lt_iff_lt] at hAB
    exact hAB

/-- C1 at the scenario of section 8: counts 5, 5, 2 with hashes `0x01`,
`0x02`, `0x00` are ranked `0x01`, `0x02`, `0x00`. -/
theorem sort_by_size_ranks_distinct_hashes_witness :
    (print_by_size { Globals.init with
        print_all_hashes := true,
        by_size := sort_by_size rb_insert_color_rotate 1 scenario_tree RB_ROOT }).1 =
      [Line.print_all, Line.columns, Line.bucket [0x01] 5 1, Line.bucket [0x02] 5 1,
        Line.bucket [0x00] 2 1] ∧
    ∃ ranked : List dupe_blocks_list,
      (print_by_size { Globals.init with
          print_all_hashes := true,
          by_size := sort_by_size rb_insert_color_rotate 1 scenario_tree RB_ROOT }).1 =
          Line.print_all :: Line.columns :: ranked.flatMap (bucket_rows { Globals.init with
            print_all_hashes := true,
            by_size := sort_by_size rb_insert_color_rotate 1 scenario_tree RB_ROOT }) ∧
        ranked.Perm scenario_tree.buckets ∧
        ranked.Chain' (fun A B => A.dl_num_elem > B.dl_num_elem ∨
          (A.dl_num_elem = B.dl_num_elem ∧ A.dl_hash < B.dl_hash)) :=
  ⟨by decide,
    sort_by_size_ranks_distinct_hashes rb_insert_color_rotate
      in_order_rb_insert_color_rotate 1 scenario_tree (by decide) (by decide)
      _ rfl rfl⟩

/-! ### C2 -/

theorem int_wrap_of_range (x : Int) (h1 : -2 ^ 31 ≤ x) (h2 : x < 2 ^ 31) :
    int_wrap x = x := by
  unfold int_wrap
  norm_num at h1 h2 ⊢
  omega

/-- With `print_all_hashes` off and `1 ≤ k < 2^31` in `num_to_print`, the loop
writes the rows of the first `k` remaining nodes. -/
theorem print_by_size_loop_top (g : Globals) (hall : g.print_all_hashes = false) :
    ∀ (nodes : List dupe_blocks_list) (k : Nat), 1 ≤ k → k < 2 ^ 31 →
      (print_by_size_loop g nodes (k : Int)).1 = (nodes.take k).flatMap (bucket_rows g)
  | [], k, _, _ => by simp [print_by_size_loop]
  | d :: ds, k + 1, _, hk => by
    have hw : int_wrap (((k + 1 : Nat) : Int) - 1) = (k : Int) := by
      rw [int_wrap_of_range] <;> push_cast <;> norm_num at hk ⊢ <;> omega
    simp only [print_by_size_loop, hall, hw, Bool.false_eq_true, if_false]
    rcases Nat.eq_zero_or_pos k with rfl | hpos
    · simp
    · have hne : ¬ ((k : Int) = 0) := by omega
      simp only [hne, if_false, List.take_succ_cons, List.flatMap_cons]
      rw [print_by_size_loop_top g hall ds k hpos (by omega)]

theorem ranked_rows_flatMap_bucket_rows (g : Globals) :
    ∀ l : List dupe_blocks_list,
      (l.flatMap (bucket_rows g)).filter Line.ranked = l.map bucket_line
  | [] => rfl
  | d :: ds => by
    have hb : (List.map (block_row g.blocksize) d.dl_list).filter Line.ranked = [] := by
      rw [List.filter_eq_nil_iff]
      intro a ha
      obtain ⟨b, _, rfl⟩ := List.mem_map.mp ha
      simp [block_row, Line.ranked]
    rw [List.flatMap_cons, List.filter_append, ranked_rows_flatMap_bucket_rows g ds]
    unfold bucket_rows
    split_ifs
    · simp [List.filter_cons, Line.ranked, hb, bucket_line]
    · simp [List.filter_cons, Line.ranked, bucket_line]

theorem ranked_rows_print_filerecs (db : dbfile) :
    (print_filerecs db).filter Line.ranked = [] := by
  rw [List.filter_eq_nil_iff]
  intro a ha
  unfold print_filerecs at ha
  rcases List.mem_cons.mp ha with rfl | ha
  · simp [Line.ranked]
  · obtain ⟨b, _, rfl⟩ := List.mem_map.mp ha
    simp [Line.ranked]

/-- The output of `main_report` after a successful load, by cases on the
gate. -/
theorem main_report_loaded (rb_insert_color : dupe_blocks_list → rb_node → rb_node)
    (digest_len : Nat) (g : Globals) (db : dbfile) (hok : db.loaded) :
    main_report rb_insert_color digest_len g db =
      (let g1 := { g with blocksize := db.disk_blocksize }
       let core : List Line × Globals :=
        if g1.num_to_print ≠ 0 ∨ g1.print_all_hashes = true then
          print_by_size
            { g1 with by_size := sort_by_size rb_insert_color digest_len db.tree g1.by_size }
        else ([], g1)
       ⟨0, print_file_info g1 db ++ core.1 ++
          (if core.2.print_file_list then print_filerecs db else []), core.2⟩) := by
  obtain ⟨h1, h2, h3, h4⟩ := hok
  simp [main_report, h1, h2, h3, h4]

/-- The ranked rows of a report with `print_all_hashes` set are the rows of
all buckets of the index, in traversal order. -/
theorem ranked_rows_main_report_all
    (rb_insert_color : dupe_blocks_list → rb_node → rb_node)
    (digest_len : Nat) (g : Globals) (db : dbfile) (hok : db.loaded)
    (hall : g.print_all_hashes = true) :
    ranked_rows (main_report rb_insert_color digest_len g db).out =
      (in_order (sort_by_size rb_insert_color digest_len db.tree g.by_size)).map
        bucket_line := by
  rw [main_report_loaded _ _ _ _ hok]
  simp only [hall, or_true, if_true, print_by_size, ranked_rows]
  rw [print_by_size_loop_all _ rfl]
  simp only [List.filter_append, print_file_info, List.filter_cons, Line.ranked,
    Bool.false_eq_true, if_false, List.filter_nil, List.nil_append]
  rw [ranked_rows_flatMap_bucket_rows]
  split_ifs <;> simp [ranked_rows_print_filerecs]

/-- The ranked rows of a report with `print_all_hashes` off and a limit
`0 ≤ k < 2^31` are the rows of the first `k` buckets of the index. -/
theorem ranked_rows_main_report_top
    (rb_insert_color : dupe_blocks_list → rb_node → rb_node)
    (digest_len : Nat) (g : Globals) (db : dbfile) (hok : db.loaded)
    (hall : g.print_all_hashes = false) (k : Nat) (hk : g.num_to_print = (k : Int))
    (h31 : k < 2 ^ 31) :
    ranked_rows (main_report rb_insert_color digest_len g db).out =
      ((in_order (sort_by_size rb_insert_color digest_len db.tree g.by_size)).take k).map
        bucket_line := by
  rw [main_report_loaded _ _ _ _ hok]
  rcases Nat.eq_zero_or_pos k with rfl | hpos
  · simp only [hall, hk, Nat.cast_zero, ne_eq, not_true_eq_false, or_self, if_false,
      ranked_rows, List.filter_append, print_file_info,
      List.filter_cons, Line.ranked, Bool.false_eq_true, List.filter_nil, List.nil_append,
      List.append_nil, List.take_zero, List.map_nil]
    split_ifs <;> simp [ranked_rows_print_filerecs]
  · have hne : ¬ ((k : Int) = 0) := by omega
    simp only [hall, hk, hne, ne_eq, not_false_eq_true, true_or, if_true, print_by_size,
      ranked_rows, Bool.false_eq_true, if_false]
    rw [print_by_size_loop_top _ rfl _ k hpos h31]
    simp only [List.filter_append, print_file_info, List.filter_cons, Line.ranked,
      Bool.false_eq_true, if_false, List.filter_nil, List.nil_append]
    rw [ranked_rows_flatMap_bucket_rows]
    split_ifs <;> simp [ranked_rows_print_filerecs]

/-- C2: after a successful load, with `print_all_hashes` off and a limit
`K ≥ 0` in `num_to_print` (an `int`, so `K < 2^31`), the ranked rows `main`
writes (gate on `num_to_print`, then the countdown of `print_by_size`) are the
first `K` ranked rows of the unlimited report of the same index, `min K N` of
them where `N` is the number of buckets of the index; for `K ≥ N` they are all
`N` rows. -/
theorem report_limit_first_rows
    (rb_insert_color : dupe_blocks_list → rb_node → rb_node)
    (digest_len : Nat) (g : Globals) (db : dbfile) (hok : db.loaded)
    (hall : g.print_all_hashes = false) (K : Nat) (hK : g.num_to_print = (K : Int))
    (h31 : K < 2 ^ 31) :
    (ranked_rows (main_report rb_insert_color digest_len
        { g with print_all_hashes := true } db).out).length =
        (in_order (sort_by_size rb_insert_color digest_len db.tree g.by_size)).length ∧
      ranked_rows (main_report rb_insert_color digest_len g db).out =
        (ranked_rows (main_report rb_insert_color digest_len
          { g with print_all_hashes := true } db).out).take K ∧
      ranked_rows (main_report rb_insert_color digest_len g db).out =
        ((in_order (sort_by_size rb_insert_color digest_len db.tree g.by_size)).take K).map
          bucket_line ∧
      (ranked_rows (main_report rb_insert_color digest_len g db).out).length =
        min K (in_order (sort_by_size rb_insert_color digest_len db.tree g.by_size)).length ∧
      ((in_order (sort_by_size rb_insert_color digest_len db.tree g.by_size)).length ≤ K →
        ranked_rows (main_report rb_insert_color digest_len g db).out =
          ranked_rows (main_report rb_insert_color digest_len
            { g with print_all_hashes := true } db).out) := by
  have hU := ranked_rows_main_report_all rb_insert_color digest_len
    { g with print_all_hashes := true } db hok rfl
  have hL := ranked_rows_main_report_top rb_insert_color digest_len g db hok hall K hK h31
  simp only at hU
  rw [hU, hL]
  refine ⟨by simp, by rw [List.map_take], rfl, by simp, ?_⟩
  intro hN
  rw [List.take_of_length_le hN]

/-- C2 at the scenario of section 8 with limit 2: the first two of three
ranked rows. -/
theorem report_limit_first_rows_witness :
    ranked_rows (main_report rb_insert_color_rotate 1 (scenario_globals 2) scenario_db).out =
        [Line.bucket [0x01] 5 1, Line.bucket [0x02] 5 1] ∧
      ranked_rows (main_report rb_insert_color_rotate 1 (scenario_globals 2) scenario_db).out =
        (ranked_rows (main_report rb_insert_color_rotate 1
          { scenario_globals 2 with print_all_hashes := true } scenario_db).out).take 2 ∧
      (ranked_rows (main_report rb_insert_color_rotate 1 (scenario_globals 2)
          scenario_db).out).length =
        min 2 (in_order (sort_by_size rb_insert_color_rotate 1 scenario_db.tree
          (scenario_globals 2).by_size)).length :=
  have h := report_limit_first_rows rb_insert_color_rotate 1 (scenario_globals 2) scenario_db
    (by decide) rfl 2 rfl (by norm_num)
  ⟨by decide, h.2.1, h.2.2.2.1⟩

/-! ### C3 -/

/-- Buckets that compare equal stand in the same relation to every other
bucket. -/
theorem precedes_congr_of_cmp_eq_zero (n : Nat) (x dups a : dupe_blocks_list)
    (hx : x.dl_hash.length = n) (hd : dups.dl_hash.length = n)
    (h : cmp n x dups = 0) : precedes a x ↔ precedes a dups := by
  obtain ⟨h1, h2⟩ := (cmp_eq_zero_iff n x dups hx hd).mp h
  unfold precedes
  rw [h1, h2]

/-- In an ordered index the descent loop reaches every bucket that compares
equal to `dups`: it leaves through `break` at such a bucket. -/
theorem insert_by_size_break_of_collision (n : Nat) (dups : dupe_blocks_list)
    (hd : dups.dl_hash.length = n) :
    ∀ t : rb_node, (∀ x ∈ in_order t, x.dl_hash.length = n) →
      (in_order t).Pairwise precedes →
      (∃ x ∈ in_order t, cmp n x dups = 0) →
      ∃ x ∈ in_order t, insert_by_size_break n dups t = some x ∧ cmp n x dups = 0
  | rb_node.NULL, _, _, h => by simp [in_order] at h
  | rb_node.node c l tmp r, hlen, hs, hcol => by
    have hlenl : ∀ x ∈ in_order l, x.dl_hash.length = n := fun x hx =>
      hlen x (by simp [in_order, hx])
    have hlenr : ∀ x ∈ in_order r, x.dl_hash.length = n := fun x hx =>
      hlen x (by simp [in_order, hx])
    have htl : tmp.dl_hash.length = n := hlen tmp (by simp [in_order])
    simp only [in_order, List.pairwise_append, List.pairwise_cons] at hs
    obtain ⟨hsl, ⟨htr, hsr⟩, hcross⟩ := hs
    obtain ⟨x, hx, hx0⟩ := hcol
    have hxl : x.dl_hash.length = n := hlen x hx
    simp only [in_order, List.mem_append, List.mem_cons] at hx
    simp only [insert_by_size_break]
    split_ifs with h1 h2
    · have hdt : precedes dups tmp := (cmp_neg_iff n tmp dups htl hd).mp h1
      rcases hx with hx | rfl | hx
      · obtain ⟨y, hy, hy1, hy2⟩ :=
          insert_by_size_break_of_collision n dups hd l hlenl hsl ⟨x, hx, hx0⟩
        exact ⟨y, by simp [in_order, hy], hy1, hy2⟩
      · rw [hx0] at h1; exact absurd h1 (by decide)
      · have h3 : precedes tmp dups :=
          (precedes_congr_of_cmp_eq_zero n x dups tmp hxl hd hx0).mp (htr x hx)
        exact absurd (precedes_trans hdt h3) (precedes_irrefl dups)
    · have htd : precedes tmp dups := (cmp_pos_iff n tmp dups htl hd).mp h2
      rcases hx with hx | rfl | hx
      · have h3 : precedes dups tmp := by
          have h4 : precedes x tmp := hcross x hx tmp (List.mem_cons_self _ _)
          unfold precedes at h4 ⊢
          obtain ⟨e1, e2⟩ := (cmp_eq_zero_iff n x dups hxl hd).mp hx0
          rw [e1, e2] at h4
          exact h4
        exact absurd (precedes_trans h3 htd) (precedes_irrefl dups)
      · rw [hx0] at h2; exact absurd h2 (by decide)
      · obtain ⟨y, hy, hy1, hy2⟩ :=
          insert_by_size_break_of_collision n dups hd r hlenr hsr ⟨x, hx, hx0⟩
        exact ⟨y, by simp [in_order, hy], hy1, hy2⟩
    · exact ⟨tmp, by simp [in_order], rfl, le_antisymm (not_lt.mp h2) (not_lt.mp h1)⟩

/-- After a successful load the status of `main_report` is the 0 that
`dbfile_read_all_hashes` returned. -/
theorem main_report_status_of_loaded
    (rb_insert_color : dupe_blocks_list → rb_node → rb_node)
    (digest_len : Nat) (g : Globals) (db : dbfile) (hok : db.loaded) :
    (main_report rb_insert_color digest_len g db).status = 0 := by
  rw [main_report_loaded _ _ _ _ hok]

/-- The loop of `sort_by_size` from an ordered index, for incoming buckets of
which none compares equal to a bucket of the index or to an earlier incoming
one: the traversal afterwards is the old one plus the inserted buckets, still
ordered. -/
theorem foldl_insert_by_size_sorted_perm_of_cmp
    (rb_insert_color : dupe_blocks_list → rb_node → rb_node)
    (hreb : ∀ d t, in_order (rb_insert_color d t) = in_order t) (n : Nat) :
    ∀ (bs : List dupe_blocks_list) (t : rb_node),
      (∀ x ∈ in_order t, x.dl_hash.length = n) →
      (∀ b ∈ bs, b.dl_hash.length = n) →
      (in_order t).Pairwise precedes →
      (∀ x ∈ in_order t, ∀ b ∈ bs, cmp n x b ≠ 0) →
      bs.Pairwise (fun a b => cmp n a b ≠ 0) →
      (in_order (bs.foldl (insert_by_size rb_insert_color n) t)).Perm
          (bs ++ in_order t) ∧
        (in_order (bs.foldl (insert_by_size rb_insert_color n) t)).Pairwise precedes
  | [], t, _, _, hs, _, _ => by simpa using hs
  | b :: bs, t, hlt, hlb, hs, hne, hd => by
    have hb : b.dl_hash.length = n := hlb b (List.mem_cons_self _ _)
    have hcmp : ∀ x ∈ in_order t, cmp n x b ≠ 0 := fun x hx =>
      hne x hx b (List.mem_cons_self _ _)
    have hmem : ∀ a, a ∈ in_order (insert_by_size rb_insert_color n t b) ↔
        a = b ∨ a ∈ in_order t := fun a => by
      unfold insert_by_size
      rw [hreb]; exact mem_in_order_link_by_size n b t hcmp a
    have hperm : (in_order (insert_by_size rb_insert_color n t b)).Perm
        (b :: in_order t) := by
      unfold insert_by_size
      rw [hreb]; exact in_order_link_by_size_perm n b t hcmp
    have hsorted : (in_order (insert_by_size rb_insert_color n t b)).Pairwise precedes := by
      unfold insert_by_size
      rw [hreb]; exact in_order_link_by_size_sorted n b hb t hlt hcmp hs
    rw [List.pairwise_cons] at hd
    have ih := foldl_insert_by_size_sorted_perm_of_cmp rb_insert_color hreb n bs
      (insert_by_size rb_insert_color n t b)
      (fun x hx => by
        rcases (hmem x).mp hx with rfl | hx
        · exact hb
        · exact hlt x hx)
      (fun x hx => hlb x (List.mem_cons_of_mem _ hx))
      hsorted
      (fun x hx y hy => by
        rcases (hmem x).mp hx with rfl | hx
        · exact hd.1 y hy
        · exact hne x hx y (List.mem_cons_of_mem _ hy))
      hd.2
    refine ⟨?_, ih.2⟩
    rw [List.foldl_cons]
    refine ih.1.trans ?_
    refine (List.Perm.append_left bs hperm).trans ?_
    exact List.perm_middle

/-- Where the descent loop leaves through `break` at a bucket `x`, `link_by_size`
stores the node of the new bucket in the slot that held the node of `x`. -/
theorem link_by_size_of_break (n : Nat) (dups x : dupe_blocks_list) :
    ∀ t : rb_node, insert_by_size_break n dups t = some x →
      ∃ path, rb_entry (rb_slot path t) = some x ∧
        rb_entry (rb_slot path (link_by_size n dups t)) = some dups
  | rb_node.NULL, h => by simp [insert_by_size_break] at h
  | rb_node.node c l tmp r, h => by
    simp only [insert_by_size_break] at h
    simp only [link_by_size]
    split_ifs at h ⊢ with h1 h2
    · obtain ⟨path, hp1, hp2⟩ := link_by_size_of_break n dups x l h
      exact ⟨false :: path, by simpa [rb_slot] using hp1, by simpa [rb_slot] using hp2⟩
    · obtain ⟨path, hp1, hp2⟩ := link_by_size_of_break n dups x r h
      exact ⟨true :: path, by simpa [rb_slot] using hp1, by simpa [rb_slot] using hp2⟩
    · refine ⟨[], ?_, ?_⟩
      · simpa [rb_slot, rb_entry] using h
      · simp [rb_slot, rb_entry]

/-- Where the descent loop ends at an empty slot, `link_by_size` adds the new
bucket and displaces nothing. -/
theorem link_by_size_of_no_break (n : Nat) (dups : dupe_blocks_list) :
    ∀ t : rb_node, insert_by_size_break n dups t = none →
      (in_order (link_by_size n dups t)).Perm (dups :: in_order t)
  | rb_node.NULL, _ => by simp [link_by_size, in_order, rb_link_node]
  | rb_node.node c l tmp r, h => by
    simp only [insert_by_size_break] at h
    simp only [link_by_size]
    split_ifs at h ⊢ with h1 h2
    · simp only [in_order]
      exact ((link_by_size_of_no_break n dups l h).append_right _).trans (by simp)
    · simp only [in_order]
      have ih := link_by_size_of_no_break n dups r h
      have h3 : (in_order l ++ tmp :: in_order (link_by_size n dups r)).Perm
          (in_order l ++ tmp :: dups :: in_order r) :=
        List.Perm.append_left _ (List.Perm.cons _ ih)
      refine h3.trans ?_
      rw [← List.cons_append]
      exact (List.perm_middle.trans (List.Perm.cons _ List.perm_middle)).trans
        ((List.Perm.swap _ _ _).trans (List.Perm.cons _ List.perm_middle.symm))

/-- A sequence of buckets in which a bucket compares equal to an earlier one
has a first such bucket: before it no two compare equal. -/
theorem exists_first_collision (n : Nat) (bs : List dupe_blocks_list)
    (hcol : ¬ bs.Pairwise (fun a b => cmp n a b ≠ 0)) :
    ∃ pre B post, bs = pre ++ B :: post ∧
      pre.Pairwise (fun a b => cmp n a b ≠ 0) ∧ ∃ A ∈ pre, cmp n A B = 0 := by
  induction bs using List.reverseRecOn with
  | nil => exact absurd List.Pairwise.nil hcol
  | append_singleton l x ih =>
    by_cases hl : l.Pairwise (fun a b => cmp n a b ≠ 0)
    · have hx : ∃ A ∈ l, cmp n A x = 0 := by
        by_contra hno
        apply hcol
        rw [List.pairwise_append]
        refine ⟨hl, List.pairwise_singleton _ _, ?_⟩
        intro a ha b hb h0
        rw [List.mem_singleton] at hb
        subst hb
        exact hno ⟨a, ha, h0⟩
      exact ⟨l, x, [], rfl, hl, hx⟩
    · obtain ⟨pre, B, post, hbs, hpre, hA⟩ := ih hl
      exact ⟨pre, B, post ++ [x], by rw [hbs]; simp, hpre, hA⟩

/-- C3, as the code has it: in every input (hashes of `digest_len` bytes) in
which a bucket collides under the comparator with a bucket supplied before it,
the descent loop of `insert_by_size` detects the first collision: for the
first such bucket `B`, on the index built from the buckets `pre` before it,
the loop leaves through `break` at a bucket `A` of `pre` with
`cmp(A, B) == 0`.  No failure is reported: `insert_by_size` has no status and
goes on to `rb_link_node` at the slot where the loop stopped, so the slot that
held the node of `A` receives the node of `B`. -/
theorem sort_by_size_collision_detected_not_reported
    (rb_insert_color : dupe_blocks_list → rb_node → rb_node)
    (hreb : ∀ d t, in_order (rb_insert_color d t) = in_order t)
    (digest_len : Nat) (tree : hash_tree)
    (hlen : ∀ b ∈ tree.buckets, b.dl_hash.length = digest_len)
    (hcol : ∃ A B, [A, B].Sublist tree.buckets ∧ cmp digest_len A B = 0) :
    ∃ pre B post A path,
      tree.buckets = pre ++ B :: post ∧
        pre.Pairwise (fun a b => cmp digest_len a b ≠ 0) ∧
        A ∈ pre ∧ cmp digest_len A B = 0 ∧
        insert_by_size_break digest_len B
          (pre.foldl (insert_by_size rb_insert_color digest_len) RB_ROOT) = some A ∧
        rb_entry (rb_slot path
          (pre.foldl (insert_by_size rb_insert_color digest_len) RB_ROOT)) = some A ∧
        rb_entry (rb_slot path (link_by_size digest_len B
          (pre.foldl (insert_by_size rb_insert_color digest_len) RB_ROOT))) = some B := by
  have hnp : ¬ tree.buckets.Pairwise (fun a b => cmp digest_len a b ≠ 0) := by
    intro hp
    obtain ⟨A, B, hsub, h0⟩ := hcol
    exact (List.pairwise_iff_forall_sublist.mp hp hsub) h0
  obtain ⟨pre, B, post, hbs, hpre, A, hA, hA0⟩ :=
    exists_first_collision digest_len tree.buckets hnp
  have hlenpre : ∀ b ∈ pre, b.dl_hash.length = digest_len := fun b hb =>
    hlen b (by rw [hbs]; simp [hb])
  have hB : B.dl_hash.length = digest_len := hlen B (by rw [hbs]; simp)
  have h := foldl_insert_by_size_sorted_perm_of_cmp rb_insert_color hreb digest_len
    pre RB_ROOT (by simp [RB_ROOT, in_order]) hlenpre
    (by simp [RB_ROOT, in_order]) (by simp [RB_ROOT, in_order]) hpre
  have hmem : ∀ x, x ∈ in_order (pre.foldl (insert_by_size rb_insert_color digest_len)
      RB_ROOT) ↔ x ∈ pre := fun x => by
    rw [h.1.mem_iff]; simp [RB_ROOT, in_order]
  obtain ⟨y, hy, hy1, hy2⟩ := insert_by_size_break_of_collision digest_len B hB
    (pre.foldl (insert_by_size rb_insert_color digest_len) RB_ROOT)
    (fun x hx => hlenpre x ((hmem x).mp hx)) h.2 ⟨A, (hmem A).mpr hA, hA0⟩
  obtain ⟨path, hp1, hp2⟩ := link_by_size_of_break digest_len B y _ hy1
  exact ⟨pre, B, post, y, path, hbs, hpre, (hmem y).mp hy, hy2, hy1, hp1, hp2⟩

/-- C3 at two buckets that share count and hash: the second insertion leaves
the loop at the first bucket, in the slot of the root. -/
theorem sort_by_size_collision_detected_not_reported_witness :
    ∃ pre B post A path,
      collision_tree.buckets = pre ++ B :: post ∧
        pre.Pairwise (fun a b => cmp 1 a b ≠ 0) ∧
        A ∈ pre ∧ cmp 1 A B = 0 ∧
        insert_by_size_break 1 B
          (pre.foldl (insert_by_size rb_insert_color_rotate 1) RB_ROOT) = some A ∧
        rb_entry (rb_slot path
          (pre.foldl (insert_by_size rb_insert_color_rotate 1) RB_ROOT)) = some A ∧
        rb_entry (rb_slot path (link_by_size 1 B
          (pre.foldl (insert_by_size rb_insert_color_rotate 1) RB_ROOT))) = some B :=
  sort_by_size_collision_detected_not_reported rb_insert_color_rotate
    in_order_rb_insert_color_rotate 1 collision_tree (by decide)
    ⟨sample_bucket "a" 5 0x01, sample_bucket "b" 5 0x01, List.Sublist.refl _, by decide⟩

/-- C3 fails as stated: for two buckets `a`, `b` that collide under the
comparator (`cmp` is 0), no failure is reported.  The insertion of `b` leaves
the loop at the root `a` and `b` is linked in the slot of the root with `a` as
its parent; the traversal visits `b` and then `a`, `main` writes two ranked
rows and returns 0.  The same holds without rebalancing. -/
theorem collision_reported_as_success :
    cmp 1 (sample_bucket "a" 5 0x01) (sample_bucket "b" 5 0x01) = 0 ∧
      collision_db.tree.buckets = [sample_bucket "a" 5 0x01, sample_bucket "b" 5 0x01] ∧
      in_order (sort_by_size rb_insert_color_rotate 1 collision_db.tree RB_ROOT) =
        [sample_bucket "b" 5 0x01, sample_bucket "a" 5 0x01] ∧
      in_order (sort_by_size (fun _ t => t) 1 collision_db.tree RB_ROOT) =
        [sample_bucket "b" 5 0x01, sample_bucket "a" 5 0x01] ∧
      (main_report rb_insert_color_rotate 1 (scenario_globals 10) collision_db).status = 0 ∧
      ranked_rows
        (main_report rb_insert_color_rotate 1 (scenario_globals 10) collision_db).out =
        [Line.bucket [0x01] 5 1, Line.bucket [0x01] 5 1] := by
  decide

/-! ### C4 -/

/-- When `parse_options` returns 0, `main` continues with the globals it
left. -/
theorem main_of_parse_options (rb_insert_color : dupe_blocks_list → rb_node → rb_node)
    (digest_len : Nat) (cl : cmdline) (db : dbfile) (g : Globals)
    (hparse : parse_options Globals.init cl = (0, g)) :
    main rb_insert_color digest_len cl db = main_report rb_insert_color digest_len g db := by
  simp [main, hparse]

/-- With `print_all_hashes` off, the countdown does not stop the loop while
fewer nodes remain than decrements (modulo `2^32`) lead from `n` to 0. -/
theorem print_by_size_loop_no_stop (g : Globals) (hall : g.print_all_hashes = false) :
    ∀ (nodes : List dupe_blocks_list) (n : Int),
      (nodes.length : Int) < (n - 1) % 2 ^ 32 + 1 →
      (print_by_size_loop g nodes n).1 = nodes.flatMap (bucket_rows g)
  | [], n, _ => by simp [print_by_size_loop]
  | d :: ds, n, h => by
    have hlen : ((d :: ds).length : Int) = (ds.length : Int) + 1 := by simp
    rw [hlen] at h
    have hne : ¬ (int_wrap (n - 1) = 0) := by
      unfold int_wrap
      norm_num at h ⊢
      omega
    have hrec : (ds.length : Int) < (int_wrap (n - 1) - 1) % 2 ^ 32 + 1 := by
      unfold int_wrap
      norm_num at h ⊢
      omega
    simp only [print_by_size_loop, hall, hne, Bool.false_eq_true, if_false,
      List.flatMap_cons]
    rw [print_by_size_loop_no_stop g hall ds _ hrec]

/-- C4, as the code has it: a negative limit `K` (an `int`, `-2^31 ≤ K < 0`)
with `print_all_hashes` off is not rejected.  After a successful load the gate
of `main` is open, `sort_by_size` and `print_by_size` run, the heading is
`Print top K hashes`, and for an index of fewer than `2^31` buckets the
countdown never reaches 0, so the ranked row of every bucket of the index is
written; the status is 0. -/
theorem negative_limit_prints_all
    (rb_insert_color : dupe_blocks_list → rb_node → rb_node)
    (digest_len : Nat) (cl : cmdline) (db : dbfile) (g : Globals)
    (hparse : parse_options Globals.init cl = (0, g)) (hok : db.loaded)
    (hall : g.print_all_hashes = false) (hneg : g.num_to_print < 0)
    (hmin : -2 ^ 31 ≤ g.num_to_print)
    (hN : (in_order (sort_by_size rb_insert_color digest_len db.tree g.by_size)).length
      < 2 ^ 31) :
    (main rb_insert_color digest_len cl db).status = 0 ∧
      (main rb_insert_color digest_len cl db).globals.by_size =
        sort_by_size rb_insert_color digest_len db.tree g.by_size ∧
      Line.print_top g.num_to_print ∈ (main rb_insert_color digest_len cl db).out ∧
      ranked_rows (main rb_insert_color digest_len cl db).out =
        (in_order (sort_by_size rb_insert_color digest_len db.tree g.by_size)).map
          bucket_line := by
  rw [main_of_parse_options _ _ _ _ _ hparse, main_report_loaded _ _ _ _ hok]
  have hne : g.num_to_print ≠ 0 := by omega
  have hstop : ((in_order (sort_by_size rb_insert_color digest_len db.tree
      g.by_size)).length : Int) < (g.num_to_print - 1) % 2 ^ 32 + 1 := by
    have h1 : ((in_order (sort_by_size rb_insert_color digest_len db.tree
        g.by_size)).length : Int) < 2 ^ 31 := by exact_mod_cast hN
    norm_num at h1 hmin ⊢
    omega
  simp only [hall, hne, ne_eq, not_false_eq_true, true_or, if_true, print_by_size,
    ranked_rows, Bool.false_eq_true, if_false]
  rw [print_by_size_loop_no_stop _ rfl _ _ hstop]
  refine ⟨trivial, trivial, by simp, ?_⟩
  simp only [List.filter_append, print_file_info, List.filter_cons, Line.ranked,
    Bool.false_eq_true, if_false, List.filter_nil, List.nil_append]
  rw [ranked_rows_flatMap_bucket_rows]
  split_ifs <;> simp [ranked_rows_print_filerecs]

/-- C4 at `-n -1` on the scenario of section 8: all three buckets are
ranked. -/
theorem negative_limit_prints_all_witness :
    (main rb_insert_color_rotate 1 (scenario_cmdline (-1)) scenario_db).status = 0 ∧
      (main rb_insert_color_rotate 1 (scenario_cmdline (-1)) scenario_db).globals.by_size =
        sort_by_size rb_insert_color_rotate 1 scenario_db.tree
          (scenario_globals (-1)).by_size ∧
      Line.print_top (scenario_globals (-1)).num_to_print ∈
        (main rb_insert_color_rotate 1 (scenario_cmdline (-1)) scenario_db).out ∧
      ranked_rows (main rb_insert_color_rotate 1 (scenario_cmdline (-1)) scenario_db).out =
        (in_order (sort_by_size rb_insert_color_rotate 1 scenario_db.tree
          (scenario_globals (-1)).by_size)).map bucket_line :=
  negative_limit_prints_all rb_insert_color_rotate 1 (scenario_cmdline (-1)) scenario_db
    (scenario_globals (-1)) rfl (by decide) rfl (by decide) (by decide) (by decide)

/-- C4 fails as stated: with `-n -1` and `print_all_hashes` off nothing is
rejected; `main` returns 0 and writes the heading and three ranked rows. -/
theorem negative_limit_not_rejected :
    (parse_options Globals.init (scenario_cmdline (-1))).2.num_to_print = -1 ∧
      (parse_options Globals.init (scenario_cmdline (-1))).2.print_all_hashes = false ∧
      (main rb_insert_color_rotate 1 (scenario_cmdline (-1)) scenario_db).status = 0 ∧
      (main rb_insert_color_rotate 1 (scenario_cmdline (-1)) scenario_db).out =
        [Line.file_info (some "hashfile") 2 0 4096 3 12 12 3 3, Line.print_top (-1),
          Line.columns, Line.bucket [0x01] 5 1, Line.bucket [0x02] 5 1,
          Line.bucket [0x00] 2 1] := by
  decide

/-! ### C5 -/

/-- Whatever stops the loop, it has written the rows of some first nodes. -/
theorem print_by_size_loop_take (g : Globals) :
    ∀ (nodes : List dupe_blocks_list) (n : Int),
      ∃ k, (print_by_size_loop g nodes n).1 = (nodes.take k).flatMap (bucket_rows g)
  | [], n => ⟨0, by simp [print_by_size_loop]⟩
  | d :: ds, n => by
    simp only [print_by_size_loop]
    split_ifs with h1 h2
    · obtain ⟨k, hk⟩ := print_by_size_loop_take g ds n
      exact ⟨k + 1, by simp [hk]⟩
    · exact ⟨1, by simp⟩
    · obtain ⟨k, hk⟩ := print_by_size_loop_take g ds (int_wrap (n - 1))
      exact ⟨k + 1, by simp [hk]⟩

/-- C5 at its failing input, `hashstats -b hashfile` on a database that loads
and reports block size 0, with one bucket of two member blocks: nothing
rejects the configuration.  The options parse, the gate of `main` is open
(`num_to_print` is 10), the index is built and holds the bucket, and the
header summary, the two heading lines and the ranked row of the bucket are
written; `print_blocks` is set and the bucket has a first member block, so the
next thing evaluated is `b_loff / blocksize` with `blocksize == 0`, a quotient
C leaves undefined. -/
theorem zero_blocksize_reaches_division :
    zero_blocksize_db.loaded ∧ zero_blocksize_db.disk_blocksize = 0 ∧
      (parse_options Globals.init detail_cmdline).1 = 0 ∧
      (parse_options Globals.init detail_cmdline).2.print_blocks = true ∧
      (parse_options Globals.init detail_cmdline).2.num_to_print = 10 ∧
      in_order (sort_by_size rb_insert_color_rotate 1 zero_blocksize_db.tree RB_ROOT) =
        [detail_bucket] ∧
      (main rb_insert_color_rotate 1 detail_cmdline zero_blocksize_db).out.take 4 =
        [Line.file_info (some "hashfile") 2 0 0 1 2 2 1 1, Line.print_top 10, Line.columns,
          Line.bucket [0x07] 2 1] ∧
      detail_bucket.dl_list.head? = some ⟨sample_file "a" 2, 0, 0⟩ ∧
      lblock 0 zero_blocksize_db.disk_blocksize = none := by
  decide

/-! ### C6 -/

/-- C6: after a successful load, with limit 0 and `print_all_hashes` off,
`main` writes the header summary of `print_file_info`, no ranked row (the core
is skipped: the output is the header and, if requested, the file list, and
`by_size` is untouched), and returns 0. -/
theorem zero_limit_report
    (rb_insert_color : dupe_blocks_list → rb_node → rb_node)
    (digest_len : Nat) (cl : cmdline) (db : dbfile) (g : Globals)
    (hparse : parse_options Globals.init cl = (0, g)) (hok : db.loaded)
    (hzero : g.num_to_print = 0) (hall : g.print_all_hashes = false) :
    (main rb_insert_color digest_len cl db).status = 0 ∧
      (main rb_insert_color digest_len cl db).out =
        print_file_info g db ++ (if g.print_file_list then print_filerecs db else []) ∧
      ranked_rows (main rb_insert_color digest_len cl db).out = [] ∧
      (main rb_insert_color digest_len cl db).globals.by_size = g.by_size := by
  have hout : (main rb_insert_color digest_len cl db).out =
      print_file_info g db ++ (if g.print_file_list then print_filerecs db else []) := by
    rw [main_of_parse_options _ _ _ _ _ hparse, main_report_loaded _ _ _ _ hok]
    simp [hzero, hall, print_file_info]
  refine ⟨?_, hout, ?_, ?_⟩
  · rw [main_of_parse_options _ _ _ _ _ hparse]
    exact main_report_status_of_loaded _ _ _ _ hok
  · rw [hout]
    simp only [ranked_rows, List.filter_append, print_file_info, List.filter_cons,
      Line.ranked, Bool.false_eq_true, if_false, List.filter_nil, List.nil_append]
    split_ifs <;> simp [ranked_rows_print_filerecs]
  · rw [main_of_parse_options _ _ _ _ _ hparse, main_report_loaded _ _ _ _ hok]
    simp [hzero, hall]

/-- C6 at `-n 0` on a database of five buckets: the header summary alone,
status 0. -/
theorem zero_limit_report_witness :
    five_bucket_db.tree.buckets.length = 5 ∧
      (main rb_insert_color_rotate 1 (scenario_cmdline 0) five_bucket_db).status = 0 ∧
      (main rb_insert_color_rotate 1 (scenario_cmdline 0) five_bucket_db).out =
        [Line.file_info (some "hashfile") 2 0 4096 5 21 21 5 5] ∧
      ranked_rows (main rb_insert_color_rotate 1 (scenario_cmdline 0) five_bucket_db).out =
        [] :=
  have h := zero_limit_report rb_insert_color_rotate 1 (scenario_cmdline 0) five_bucket_db
    (scenario_globals 0) rfl (by decide) rfl rfl
  ⟨rfl, h.1, by decide, h.2.2.1⟩

/-! ### C7 -/

/-- The text written depends on `b_flags` alone. -/
theorem printf_file_block_flags_of_b_flags (b_file : filerec) (b_loff b_flags : Nat) :
    printf_file_block_flags ⟨b_file, b_loff, b_flags⟩ =
      printf_file_block_flags ⟨⟨"", 0, 0, 0⟩, 0, b_flags⟩ := rfl

/-- C7: for every subset of the three tags, `printf_file_block_flags` applied
to the bitwise OR of the bits of its members writes exactly the names of its
members, each once, in the order `skip_compare`, `deduped`, `hole`; in
particular `FILE_BLOCK_DEDUPED | FILE_BLOCK_HOLE` is decoded as `deduped`,
`hole`. -/
theorem printf_file_block_flags_encode_flags :
    (∀ (skip_compare deduped hole : Bool) (b_file : filerec) (b_loff : Nat),
      printf_file_block_flags ⟨b_file, b_loff, encode_flags skip_compare deduped hole⟩ =
        render_names (tag_names skip_compare deduped hole)) ∧
      (∀ (b_file : filerec) (b_loff : Nat),
        printf_file_block_flags ⟨b_file, b_loff, FILE_BLOCK_DEDUPED ||| FILE_BLOCK_HOLE⟩ =
          "( deduped hole )") ∧
      tag_names false true true = ["deduped", "hole"] := by
  refine ⟨?_, ?_, rfl⟩
  · intro s d h b_file b_loff
    rw [printf_file_block_flags_of_b_flags]
    cases s <;> cases d <;> cases h <;> decide
  · intro b_file b_loff
    rw [printf_file_block_flags_of_b_flags]
    decide

/-! ### C8 -/

theorem detail_rows_bucket_rows (g : Globals) (hp : g.print_blocks = true)
    (dups : dupe_blocks_list) :
    (bucket_rows g dups).filter Line.detail = dups.dl_list.map (block_row g.blocksize) := by
  have hb : (dups.dl_list.map (block_row g.blocksize)).filter Line.detail =
      dups.dl_list.map (block_row g.blocksize) := by
    rw [List.filter_eq_self]
    intro a ha
    obtain ⟨b, _, rfl⟩ := List.mem_map.mp ha
    rfl
  simp [bucket_rows, hp, List.filter_cons, Line.detail, hb]

/-- C8: with `print_blocks` set, `print_by_size` writes for each bucket it
emits (the first `k` of the index, for some `k`) the ranked row followed by
one detail row per entry of `dl_list`, in the stored order: the `i`-th detail
row carries the file name, `b_loff` and `b_flags` of the `i`-th member block,
and there are as many detail rows as entries. -/
theorem detail_rows_follow_dl_list (g : Globals) (hp : g.print_blocks = true) :
    (∃ k, (print_by_size g).1 =
        (if g.print_all_hashes then Line.print_all else Line.print_top g.num_to_print) ::
          Line.columns ::
          ((in_order g.by_size).take k).flatMap (fun dups =>
            bucket_line dups :: dups.dl_list.map (block_row g.blocksize))) ∧
      ∀ dups : dupe_blocks_list,
        bucket_rows g dups = bucket_line dups :: dups.dl_list.map (block_row g.blocksize) ∧
          ((bucket_rows g dups).filter Line.detail).length = dups.dl_list.length ∧
          ∀ i : Nat, ((bucket_rows g dups).filter Line.detail)[i]? =
            (dups.dl_list[i]?).map (fun block =>
              Line.block block.b_file.filename block.b_loff
                (lblock block.b_loff g.blocksize) block.b_flags
                (printf_file_block_flags block)) := by
  have hrows : ∀ dups : dupe_blocks_list,
      bucket_rows g dups = bucket_line dups :: dups.dl_list.map (block_row g.blocksize) := by
    intro dups
    simp [bucket_rows, hp, bucket_line]
  refine ⟨?_, fun dups => ⟨hrows dups, ?_, ?_⟩⟩
  · obtain ⟨k, hk⟩ := print_by_size_loop_take g (in_order g.by_size) g.num_to_print
    refine ⟨k, ?_⟩
    have hfun : bucket_rows g = fun dups =>
        bucket_line dups :: dups.dl_list.map (block_row g.blocksize) := funext hrows
    simp only [print_by_size, hk, hfun]
  · rw [detail_rows_bucket_rows g hp, List.length_map]
  · intro i
    rw [detail_rows_bucket_rows g hp, List.getElem?_map]
    rfl

/-- C8 at a bucket of two member blocks: two detail rows, in the order of
`dl_list`. -/
theorem detail_rows_follow_dl_list_witness :
    (print_by_size detail_globals).1 =
        [Line.print_top 10, Line.columns, Line.bucket [0x07] 2 1,
          Line.block "a" 0 (some 0) 0 "", Line.block "a" 4096 (some 1) 2 "( deduped )"] ∧
      ((bucket_rows detail_globals detail_bucket).filter Line.detail).length =
        detail_bucket.dl_list.length ∧
      ∀ i : Nat, ((bucket_rows detail_globals detail_bucket).filter Line.detail)[i]? =
        (detail_bucket.dl_list[i]?).map (fun block =>
          Line.block block.b_file.filename block.b_loff
            (lblock block.b_loff detail_globals.blocksize) block.b_flags
            (printf_file_block_flags block)) :=
  have h := (detail_rows_follow_dl_list detail_globals rfl).2 detail_bucket
  ⟨by decide, h.2.1, h.2.2⟩

/-! ### C9 -/

/-- C9: with `print_all_hashes` set, whatever `num_to_print` holds (zero and
negative values included), `main` after a successful load runs the traversal
to its end: the output is the header summary, the heading `Print all hashes`,
the rows of every bucket of the index in traversal order, and the file list if
requested; `num_to_print` is left as the options set it. -/
theorem print_all_hashes_not_truncated
    (rb_insert_color : dupe_blocks_list → rb_node → rb_node)
    (digest_len : Nat) (cl : cmdline) (db : dbfile) (g : Globals)
    (hparse : parse_options Globals.init cl = (0, g)) (hok : db.loaded)
    (hall : g.print_all_hashes = true) :
    (main rb_insert_color digest_len cl db).out =
        print_file_info g db ++ Line.print_all :: Line.columns ::
          (in_order (sort_by_size rb_insert_color digest_len db.tree g.by_size)).flatMap
            (bucket_rows { g with blocksize := db.disk_blocksize }) ++
          (if g.print_file_list then print_filerecs db else []) ∧
      ranked_rows (main rb_insert_color digest_len cl db).out =
        (in_order (sort_by_size rb_insert_color digest_len db.tree g.by_size)).map
          bucket_line ∧
      (main rb_insert_color digest_len cl db).globals.num_to_print = g.num_to_print := by
  rw [main_of_parse_options _ _ _ _ _ hparse]
  refine ⟨?_, ranked_rows_main_report_all _ _ _ _ hok hall, ?_⟩
  · rw [main_report_loaded _ _ _ _ hok]
    simp only [hall, or_true, if_true, print_by_size]
    rw [print_by_size_loop_all _ rfl]
    have hfun : ∀ t : rb_node, bucket_rows
        { g with blocksize := db.disk_blocksize, print_all_hashes := true, by_size := t } =
        bucket_rows { g with blocksize := db.disk_blocksize } := fun _ => rfl
    simp [print_file_info, hfun]
  · rw [main_report_loaded _ _ _ _ hok]
    simp only [hall, or_true, if_true, print_by_size]
    rw [print_by_size_loop_all _ rfl]

/-- C9 at `-a -n 0` on the scenario of section 8: all three buckets are
ranked and `num_to_print` stays 0. -/
theorem print_all_hashes_not_truncated_witness :
    ranked_rows (main rb_insert_color_rotate 1
        ⟨5, "hashstats", [getopt_result.a, getopt_result.n 0], ["hashfile"]⟩
        scenario_db).out =
        [Line.bucket [0x01] 5 1, Line.bucket [0x02] 5 1, Line.bucket [0x00] 2 1] ∧
      ranked_rows (main rb_insert_color_rotate 1
        ⟨5, "hashstats", [getopt_result.a, getopt_result.n 0], ["hashfile"]⟩
        scenario_db).out =
        (in_order (sort_by_size rb_insert_color_rotate 1 scenario_db.tree RB_ROOT)).map
          bucket_line ∧
      (main rb_insert_color_rotate 1
        ⟨5, "hashstats", [getopt_result.a, getopt_result.n 0], ["hashfile"]⟩
        scenario_db).globals.num_to_print = 0 :=
  have h := print_all_hashes_not_truncated rb_insert_color_rotate 1
    ⟨5, "hashstats", [getopt_result.a, getopt_result.n 0], ["hashfile"]⟩ scenario_db
    { scenario_globals 0 with print_all_hashes := true } rfl (by decide) rfl
  ⟨by decide, h.2.1, h.2.2⟩

/-! ### C10 -/

/-- C10: when the options parse and the checksum module initialises, a
non-zero status of `dbfile_open`, `dbfile_get_config` or
`dbfile_read_all_hashes` (the first that fails) is what `main` returns, and
the core does not run: nothing is written, neither header summary nor ranked
row, and `by_size` stays the empty `RB_ROOT`, `num_to_print` as parsed. -/
theorem main_database_failure
    (rb_insert_color : dupe_blocks_list → rb_node → rb_node)
    (digest_len : Nat) (cl : cmdline) (db : dbfile) (g : Globals)
    (hparse : parse_options Globals.init cl = (0, g))
    (hcsum : db.init_csum_module = 0)
    (hfail : db.dbfile_open ≠ 0 ∨ db.dbfile_get_config ≠ 0 ∨
      db.dbfile_read_all_hashes ≠ 0) :
    (main rb_insert_color digest_len cl db).status = db.first_failure ∧
      (main rb_insert_color digest_len cl db).status ≠ 0 ∧
      (main rb_insert_color digest_len cl db).out = [] ∧
      (main rb_insert_color digest_len cl db).globals.by_size = g.by_size ∧
      (main rb_insert_color digest_len cl db).globals.num_to_print = g.num_to_print := by
  rw [main_of_parse_options _ _ _ _ _ hparse]
  unfold main_report dbfile.first_failure
  simp only [hcsum, ne_eq, not_true_eq_false, if_false]
  by_cases h1 : db.dbfile_open = 0
  · by_cases h2 : db.dbfile_get_config = 0
    · have h3 : db.dbfile_read_all_hashes ≠ 0 := by
        rcases hfail with h | h | h
        · exact absurd h1 h
        · exact absurd h2 h
        · exact h
      simp [h1, h2, h3]
    · simp [h1, h2]
  · simp [h1]

/-- C10 at a database whose hashes cannot be read: status 5, no output. -/
theorem main_database_failure_witness :
    (main rb_insert_color_rotate 1 (scenario_cmdline 10) unreadable_db).status = 5 ∧
      (main rb_insert_color_rotate 1 (scenario_cmdline 10) unreadable_db).out = [] ∧
      (main rb_insert_color_rotate 1 (scenario_cmdline 10) unreadable_db).globals.by_size =
        RB_ROOT :=
  have h := main_database_failure rb_insert_color_rotate 1 (scenario_cmdline 10)
    unreadable_db (scenario_globals 10) rfl rfl (Or.inr (Or.inr (by decide)))
  ⟨h.1, h.2.2.1, h.2.2.2.1⟩

/-! ### C13 -/

/-- Swapping the arguments of `memcmp` negates the result. -/
theorem memcmp_swap : ∀ (n : Nat) (a b : List Byte), memcmp a b n = -memcmp b a n
  | 0, _, _ => by simp [memcmp]
  | _ + 1, [], [] => by simp [memcmp]
  | _ + 1, [], _ :: _ => by simp [memcmp]
  | _ + 1, _ :: _, [] => by simp [memcmp]
  | n + 1, x :: xs, y :: ys => by
    simp only [memcmp]
    by_cases hxy : x = y
    · subst hxy; simp [memcmp_swap n xs ys]
    · have hyx : ¬ y = x := fun h => hxy h.symm
      simp only [hxy, hyx, if_false]
      omega

/-- Swapping the arguments of `cmp` negates the result. -/
theorem cmp_swap (n : Nat) (A B : dupe_blocks_list) : cmp n A B = -cmp n B A := by
  unfold cmp
  split_ifs <;> first | omega | exact memcmp_swap n _ _

/-- C13: for buckets `A`, `B` with hashes of `digest_len` bytes, `cmp(B, A) < 0`
(the branch that puts the new `A` to the left of `B`) holds exactly when `A`
has more members than `B`, or as many and the byte-lexicographically smaller
hash; `cmp(B, A) == 0` holds exactly when counts and hashes are equal, so
distinct hashes never compare equal; and the sign of `cmp(A, B)` is the
opposite of the sign of `cmp(B, A)`. -/
theorem cmp_realises_ordering_key (digest_len : Nat) (A B : dupe_blocks_list)
    (hA : A.dl_hash.length = digest_len) (hB : B.dl_hash.length = digest_len) :
    (cmp digest_len B A < 0 ↔
        A.dl_num_elem > B.dl_num_elem ∨
          (A.dl_num_elem = B.dl_num_elem ∧ A.dl_hash < B.dl_hash)) ∧
      (cmp digest_len B A = 0 ↔
        A.dl_num_elem = B.dl_num_elem ∧ A.dl_hash = B.dl_hash) ∧
      (A.dl_hash ≠ B.dl_hash → cmp digest_len B A ≠ 0) ∧
      Int.sign (cmp digest_len A B) = -Int.sign (cmp digest_len B A) := by
  refine ⟨?_, ?_, ?_, ?_⟩
  · rw [cmp_neg_iff digest_len B A hB hA]
    unfold precedes
    rw [hash_lt_iff_lt]
  · rw [cmp_eq_zero_iff digest_len B A hB hA]
    constructor
    · rintro ⟨h1, h2⟩; exact ⟨h1.symm, h2.symm⟩
    · rintro ⟨h1, h2⟩; exact ⟨h1.symm, h2.symm⟩
  · intro hne
    exact cmp_ne_zero_of_hash_ne digest_len B A hB hA (fun h => hne h.symm)
  · rw [cmp_swap digest_len A B, Int.sign_neg]

/-- C13 at the two buckets of count 5 of the scenario of section 8: the one
with hash `0x01` goes to the left of the one with hash `0x02`. -/
theorem cmp_realises_ordering_key_witness :
    cmp 1 (sample_bucket "b" 5 0x02) (sample_bucket "a" 5 0x01) = -1 ∧
      (cmp 1 (sample_bucket "b" 5 0x02) (sample_bucket "a" 5 0x01) < 0 ↔
        (sample_bucket "a" 5 0x01).dl_num_elem > (sample_bucket "b" 5 0x02).dl_num_elem ∨
          ((sample_bucket "a" 5 0x01).dl_num_elem = (sample_bucket "b" 5 0x02).dl_num_elem ∧
            (sample_bucket "a" 5 0x01).dl_hash < (sample_bucket "b" 5 0x02).dl_hash)) ∧
      Int.sign (cmp 1 (sample_bucket "a" 5 0x01) (sample_bucket "b" 5 0x02)) =
        -Int.sign (cmp 1 (sample_bucket "b" 5 0x02) (sample_bucket "a" 5 0x01)) :=
  have h := cmp_realises_ordering_key 1 (sample_bucket "a" 5 0x01) (sample_bucket "b" 5 0x02)
    rfl rfl
  ⟨by decide, h.1, h.2.2.2⟩

/-! ### C15 -/

/-- C15: for a block size `blocksize > 0` and a 64-bit `b_loff`, the `lblock`
of a detail row is the quotient `b_loff / blocksize` rounded down:
`lblock * blocksize ≤ b_loff < (lblock + 1) * blocksize`, and it is below
`2^64`, so nothing wraps. -/
theorem lblock_floor (blocksize : Nat) (block : file_block) (hpos : 0 < blocksize)
    (h64 : block.b_loff < 2 ^ 64) :
    ∃ q : Nat,
      block_row blocksize block =
          Line.block block.b_file.filename block.b_loff (some q) block.b_flags
            (printf_file_block_flags block) ∧
        lblock block.b_loff blocksize = some q ∧
        q = block.b_loff / blocksize ∧
        q * blocksize ≤ block.b_loff ∧
        block.b_loff < (q + 1) * blocksize ∧
        q < 2 ^ 64 := by
  have hne : blocksize ≠ 0 := by omega
  have hl : lblock block.b_loff blocksize = some (block.b_loff / blocksize) := by
    rw [lblock, if_neg hne, Nat.mod_eq_of_lt h64]
  refine ⟨block.b_loff / blocksize, by simp [block_row, hl], hl, rfl,
    Nat.div_mul_le_self _ _, ?_, ?_⟩
  · rw [Nat.mul_comm]
    exact Nat.lt_mul_div_succ _ hpos
  · exact lt_of_le_of_lt (Nat.div_le_self _ _) h64

/-- C15 at offset 12345 and block size 4096: `lblock` is 3. -/
theorem lblock_floor_witness :
    lblock 12345 4096 = some 3 ∧
      ∃ q : Nat,
        block_row 4096 ⟨sample_file "a" 4, 12345, 0⟩ =
            Line.block "a" 12345 (some q) 0 (printf_file_block_flags
              ⟨sample_file "a" 4, 12345, 0⟩) ∧
          lblock 12345 4096 = some q ∧
          q = 12345 / 4096 ∧
          q * 4096 ≤ 12345 ∧
          12345 < (q + 1) * 4096 ∧
          q < 2 ^ 64 :=
  ⟨by decide, lblock_floor 4096 ⟨sample_file "a" 4, 12345, 0⟩ (by decide) (by norm_num)⟩

/-! ### C16 -/

/-- The test `x & 2^i` of C is the test of bit `i`. -/
theorem and_two_pow_ne_zero_iff (x i : Nat) : x &&& 2 ^ i ≠ 0 ↔ x.testBit i = true := by
  constructor
  · intro h
    by_contra hb
    apply h
    apply Nat.eq_of_testBit_eq
    intro j
    rw [Nat.testBit_and, Nat.testBit_two_pow, Nat.zero_testBit]
    by_cases hij : i = j
    · subst hij; simp [hb]
    · simp [hij]
  · intro hb h
    have h1 := Nat.testBit_and x (2 ^ i) i
    rw [h, Nat.zero_testBit, hb, Nat.testBit_two_pow_self] at h1
    exact absurd h1 (by decide)

/-- For non-zero `b_flags` the text is `"( "`, the names of the tags whose
bit is set, each followed by a blank, and `")"`. -/
theorem printf_file_block_flags_of_ne_zero (block : file_block)
    (h : block.b_flags ≠ 0) :
    printf_file_block_flags block =
      "( " ++ String.join ((tag_names (block.b_flags.testBit 0) (block.b_flags.testBit 1)
        (block.b_flags.testBit 2)).map (fun s => s ++ " ")) ++ ")" := by
  have h0 : block.b_flags &&& FILE_BLOCK_SKIP_COMPARE ≠ 0 ↔
      block.b_flags.testBit 0 = true := and_two_pow_ne_zero_iff block.b_flags 0
  have h1 : block.b_flags &&& FILE_BLOCK_DEDUPED ≠ 0 ↔
      block.b_flags.testBit 1 = true := and_two_pow_ne_zero_iff block.b_flags 1
  have h2 : block.b_flags &&& FILE_BLOCK_HOLE ≠ 0 ↔
      block.b_flags.testBit 2 = true := and_two_pow_ne_zero_iff block.b_flags 2
  unfold printf_file_block_flags
  rw [if_neg h]
  simp only [h0, h1, h2]
  cases block.b_flags.testBit 0 <;> cases block.b_flags.testBit 1 <;>
    cases block.b_flags.testBit 2 <;> rfl

/-- C16: `printf_file_block_flags` always yields a text; the text is empty
exactly when `b_flags == 0`; for non-zero `b_flags` it is `"( "`, then the
names of those of the three known tags whose bit is set (in the order
`skip_compare`, `deduped`, `hole`, each followed by a blank), then `")"`; so
non-zero `b_flags` with none of the three bits set gives `"( )"`. -/
theorem printf_file_block_flags_renders (block : file_block) :
    (printf_file_block_flags block = "" ↔ block.b_flags = 0) ∧
      (block.b_flags ≠ 0 →
        printf_file_block_flags block =
          "( " ++ String.join ((tag_names (block.b_flags.testBit 0)
            (block.b_flags.testBit 1) (block.b_flags.testBit 2)).map
              (fun s => s ++ " ")) ++ ")") ∧
      (block.b_flags ≠ 0 → block.b_flags.testBit 0 = false →
        block.b_flags.testBit 1 = false → block.b_flags.testBit 2 = false →
        printf_file_block_flags block = "( )") := by
  refine ⟨?_, printf_file_block_flags_of_ne_zero block, ?_⟩
  · constructor
    · intro he
      by_contra hne
      rw [printf_file_block_flags_of_ne_zero block hne] at he
      have hlen := congrArg String.length he
      simp only [String.length_append] at hlen
      have h2 : (")" : String).length = 1 := by decide
      have h3 : ("" : String).length = 0 := by decide
      omega
    · intro hz
      simp [printf_file_block_flags, hz]
  · intro hne b0 b1 b2
    rw [printf_file_block_flags_of_ne_zero block hne, b0, b1, b2]
    rfl

/-- C16 at `b_flags = 8`, a bit outside the three known tags: the text is
`"( )"`; and at `b_flags = 0` it is empty. -/
theorem printf_file_block_flags_renders_witness :
    printf_file_block_flags ⟨sample_file "a" 1, 0, 8⟩ = "( )" ∧
      (printf_file_block_flags ⟨sample_file "a" 1, 0, 0⟩ = "" ↔
        (⟨sample_file "a" 1, 0, 0⟩ : file_block).b_flags = 0) :=
  ⟨(printf_file_block_flags_renders ⟨sample_file "a" 1, 0, 8⟩).2.2 (by decide) (by decide)
      (by decide) (by decide),
    (printf_file_block_flags_renders ⟨sample_file "a" 1, 0, 0⟩).1⟩

/-! ### C12 -/

/-- The option loop never touches `by_size`, changes `num_to_print` only at
`-n` and `print_all_hashes` only at `-a`. -/
theorem parse_options_loop_keeps : ∀ (opts : List getopt_result) (g : Globals),
    (parse_options_loop g opts).2.by_size = g.by_size ∧
      ((∀ v, getopt_result.n v ∉ opts) →
        (parse_options_loop g opts).2.num_to_print = g.num_to_print) ∧
      (getopt_result.a ∉ opts →
        (parse_options_loop g opts).2.print_all_hashes = g.print_all_hashes)
  | [], g => by simp [parse_options_loop]
  | c :: cs, g => by
    cases c with
    | l =>
      have ih := parse_options_loop_keeps cs { g with print_file_list := true }
      simp only [parse_options_loop]
      refine ⟨ih.1, fun h => ih.2.1 (fun v hv => h v (List.mem_cons_of_mem _ hv)),
        fun h => ih.2.2 (fun hv => h (List.mem_cons_of_mem _ hv))⟩
    | a =>
      have ih := parse_options_loop_keeps cs { g with print_all_hashes := true }
      simp only [parse_options_loop]
      refine ⟨ih.1, fun h => ih.2.1 (fun v hv => h v (List.mem_cons_of_mem _ hv)),
        fun h => absurd (List.mem_cons_self _ _) h⟩
    | b =>
      have ih := parse_options_loop_keeps cs { g with print_blocks := true }
      simp only [parse_options_loop]
      refine ⟨ih.1, fun h => ih.2.1 (fun v hv => h v (List.mem_cons_of_mem _ hv)),
        fun h => ih.2.2 (fun hv => h (List.mem_cons_of_mem _ hv))⟩
    | n v =>
      have ih := parse_options_loop_keeps cs { g with num_to_print := v }
      simp only [parse_options_loop]
      refine ⟨ih.1, fun h => absurd (List.mem_cons_self _ _) (h v),
        fun h => ih.2.2 (fun hv => h (List.mem_cons_of_mem _ hv))⟩
    | VERSION_OPTION => simp [parse_options_loop]
    | HELP_OPTION => simp [parse_options_loop]
    | unknown => simp [parse_options_loop]

/-- What a successful `parse_options` leaves of the globals it started from. -/
theorem parse_options_keeps (g0 g : Globals) (cl : cmdline)
    (hparse : parse_options g0 cl = (0, g)) :
    g.by_size = g0.by_size ∧
      ((∀ v, getopt_result.n v ∉ cl.opts) → g.num_to_print = g0.num_to_print) ∧
      (getopt_result.a ∉ cl.opts → g.print_all_hashes = g0.print_all_hashes) := by
  have hk := parse_options_loop_keeps cl.opts g0
  unfold parse_options at hparse
  by_cases h1 : cl.argc < 2
  · simp [h1] at hparse
  · by_cases h2 : (parse_options_loop g0 cl.opts).1 = true
    · simp [h1, h2] at hparse
    · simp only [h1, h2, if_false, Bool.false_eq_true] at hparse
      split at hparse
      · simp only [Prod.mk.injEq, true_and] at hparse
        subst hparse
        exact hk
      · simp at hparse

/-- C12: when the command line has no `-n` and no `-a`, `num_to_print` keeps
its initial value 10 and `print_all_hashes` stays off, and after a successful
load the ranked rows `main` writes are those of the first `min 10 N` buckets
of the index built from the `N` buckets: the first 10 ranked rows of the
unlimited report. -/
theorem default_limit_is_ten
    (rb_insert_color : dupe_blocks_list → rb_node → rb_node)
    (digest_len : Nat) (cl : cmdline) (db : dbfile) (g : Globals)
    (hparse : parse_options Globals.init cl = (0, g)) (hok : db.loaded)
    (hn : ∀ v, getopt_result.n v ∉ cl.opts) (ha : getopt_result.a ∉ cl.opts) :
    g.num_to_print = 10 ∧ g.print_all_hashes = false ∧
      ranked_rows (main rb_insert_color digest_len cl db).out =
        ((in_order (sort_by_size rb_insert_color digest_len db.tree RB_ROOT)).take 10).map
          bucket_line ∧
      ranked_rows (main rb_insert_color digest_len cl db).out =
        (ranked_rows (main_report rb_insert_color digest_len
          { g with print_all_hashes := true } db).out).take 10 ∧
      (ranked_rows (main rb_insert_color digest_len cl db).out).length =
        min 10 (in_order (sort_by_size rb_insert_color digest_len db.tree RB_ROOT)).length := by
  obtain ⟨hby, hnum, hall⟩ := parse_options_keeps Globals.init g cl hparse
  have hnum10 : g.num_to_print = ((10 : Nat) : Int) := hnum hn
  have hallf : g.print_all_hashes = false := hall ha
  have hroot : g.by_size = RB_ROOT := hby
  have hL := ranked_rows_main_report_top rb_insert_color digest_len g db hok hallf 10
    hnum10 (by norm_num)
  have hU := ranked_rows_main_report_all rb_insert_color digest_len
    { g with print_all_hashes := true } db hok rfl
  simp only at hU
  rw [main_of_parse_options _ _ _ _ _ hparse, hL, hU, hroot]
  exact ⟨hnum hn, hallf, rfl, by rw [List.map_take], by simp⟩

/-- C12 at `hashstats hashfile` on a database of twelve buckets of counts 1 to
12: the ten largest are ranked, the largest first. -/
theorem default_limit_is_ten_witness :
    (in_order (sort_by_size rb_insert_color_rotate 1 twelve_bucket_db.tree RB_ROOT)).length =
        12 ∧
      ranked_rows (main rb_insert_color_rotate 1 plain_cmdline twelve_bucket_db).out =
        [Line.bucket [0x0b] 12 1, Line.bucket [0x0a] 11 1, Line.bucket [0x09] 10 1,
          Line.bucket [0x08] 9 1, Line.bucket [0x07] 8 1, Line.bucket [0x06] 7 1,
          Line.bucket [0x05] 6 1, Line.bucket [0x04] 5 1, Line.bucket [0x03] 4 1,
          Line.bucket [0x02] 3 1] ∧
      (ranked_rows (main rb_insert_color_rotate 1 plain_cmdline twelve_bucket_db).out).length =
        min 10 (in_order (sort_by_size rb_insert_color_rotate 1 twelve_bucket_db.tree
          RB_ROOT)).length :=
  have h := default_limit_is_ten rb_insert_color_rotate 1 plain_cmdline twelve_bucket_db
    { Globals.init with serialize_fname := some "hashfile" } rfl (by decide)
    (fun _ => List.not_mem_nil _) (List.not_mem_nil _)
  ⟨by decide, by decide, h.2.2.2.2⟩

/-! ### C17 -/

/-- The report loop reads of the globals only `print_all_hashes`,
`print_blocks` and `blocksize`. -/
theorem print_by_size_loop_congr (g1 g2 : Globals)
    (hall : g1.print_all_hashes = g2.print_all_hashes)
    (hblocks : g1.print_blocks = g2.print_blocks) (hsize : g1.blocksize = g2.blocksize) :
    ∀ (nodes : List dupe_blocks_list) (n : Int),
      print_by_size_loop g1 nodes n = print_by_size_loop g2 nodes n
  | [], _ => rfl
  | d :: ds, n => by
    have hrows : bucket_rows g1 d = bucket_rows g2 d := by
      simp [bucket_rows, hblocks, hsize]
    simp only [print_by_size_loop, hall, hrows,
      print_by_size_loop_congr g1 g2 hall hblocks hsize ds]

/-- The output of `print_by_size` depends on `by_size` through its traversal
only. -/
theorem print_by_size_of_in_order (g : Globals) (t1 t2 : rb_node)
    (h : in_order t1 = in_order t2) :
    (print_by_size { g with by_size := t1 }).1 = (print_by_size { g with by_size := t2 }).1 := by
  simp only [print_by_size, h]
  rw [print_by_size_loop_congr { g with by_size := t1 } { g with by_size := t2 } rfl rfl rfl]

/-- Two traversals ordered by `precedes` that hold the same buckets are the
same sequence. -/
theorem eq_of_perm_of_pairwise_precedes {l1 l2 : List dupe_blocks_list}
    (hp : l1.Perm l2) (h1 : l1.Pairwise precedes) (h2 : l2.Pairwise precedes) :
    l1 = l2 := by
  haveI : IsAntisymm dupe_blocks_list precedes :=
    ⟨fun a _ hab hba => absurd (precedes_trans hab hba) (precedes_irrefl a)⟩
  exact List.eq_of_perm_of_sorted hp h1 h2

/-- Builds from the empty index of two enumerations of the same buckets, each
with its own rebalancing steps, have the same traversal. -/
theorem in_order_sort_by_size_of_perm
    (rb1 rb2 : dupe_blocks_list → rb_node → rb_node)
    (hreb1 : ∀ d t, in_order (rb1 d t) = in_order t)
    (hreb2 : ∀ d t, in_order (rb2 d t) = in_order t)
    (digest_len : Nat) (t1 t2 : hash_tree) (hperm : t1.buckets.Perm t2.buckets)
    (hlen : ∀ b ∈ t1.buckets, b.dl_hash.length = digest_len)
    (hdistinct : t1.buckets.Pairwise (fun a b => a.dl_hash ≠ b.dl_hash)) :
    in_order (sort_by_size rb1 digest_len t1 RB_ROOT) =
      in_order (sort_by_size rb2 digest_len t2 RB_ROOT) := by
  have hdistinct2 : t2.buckets.Pairwise (fun a b => a.dl_hash ≠ b.dl_hash) :=
    (hperm.pairwise_iff (fun h => Ne.symm h)).mp hdistinct
  have hlen2 : ∀ b ∈ t2.buckets, b.dl_hash.length = digest_len := fun b hb =>
    hlen b (hperm.mem_iff.mpr hb)
  have h1 := foldl_insert_by_size_sorted_perm rb1 hreb1 digest_len
    t1.buckets RB_ROOT (by simp [RB_ROOT, in_order]) hlen
    (by simp [RB_ROOT, in_order]) (by simp [RB_ROOT, in_order]) hdistinct
  have h2 := foldl_insert_by_size_sorted_perm rb2 hreb2 digest_len
    t2.buckets RB_ROOT (by simp [RB_ROOT, in_order]) hlen2
    (by simp [RB_ROOT, in_order]) (by simp [RB_ROOT, in_order]) hdistinct2
  simp only [RB_ROOT, in_order, List.append_nil] at h1 h2
  exact eq_of_perm_of_pairwise_precedes ((h1.1.trans hperm).trans h2.1.symm) h1.2 h2.2

/-- C17: for buckets of pairwise distinct hashes (of `digest_len` bytes), two
primary indexes that enumerate the same buckets in different orders give,
through `insert_by_size` from the empty `by_size`, the same unlimited
traversal; hence `print_by_size` writes the same rows for every limit and
every setting of the flags, and in particular the same first `K` buckets. -/
theorem ranking_independent_of_enumeration
    (rb_insert_color : dupe_blocks_list → rb_node → rb_node)
    (hreb : ∀ d t, in_order (rb_insert_color d t) = in_order t)
    (digest_len : Nat) (t1 t2 : hash_tree) (hperm : t1.buckets.Perm t2.buckets)
    (hlen : ∀ b ∈ t1.buckets, b.dl_hash.length = digest_len)
    (hdistinct : t1.buckets.Pairwise (fun a b => a.dl_hash ≠ b.dl_hash)) :
    in_order (t1.buckets.foldl (insert_by_size rb_insert_color digest_len) RB_ROOT) =
        in_order (t2.buckets.foldl (insert_by_size rb_insert_color digest_len) RB_ROOT) ∧
      (∀ K : Nat,
        (in_order (sort_by_size rb_insert_color digest_len t1 RB_ROOT)).take K =
          (in_order (sort_by_size rb_insert_color digest_len t2 RB_ROOT)).take K) ∧
      ∀ g : Globals,
        (print_by_size
            { g with by_size := sort_by_size rb_insert_color digest_len t1 RB_ROOT }).1 =
          (print_by_size
            { g with by_size := sort_by_size rb_insert_color digest_len t2 RB_ROOT }).1 := by
  have h := in_order_sort_by_size_of_perm rb_insert_color rb_insert_color hreb hreb
    digest_len t1 t2 hperm hlen hdistinct
  refine ⟨h, fun K => by rw [h], fun g => print_by_size_of_in_order g _ _ h⟩

/-- C17 at the scenario of section 8 enumerated forwards and backwards: the
same ranking `0x01`, `0x02`, `0x00`. -/
theorem ranking_independent_of_enumeration_witness :
    (in_order (sort_by_size rb_insert_color_rotate 1 scenario_tree_reordered RB_ROOT)).map
        bucket_line =
        [Line.bucket [0x01] 5 1, Line.bucket [0x02] 5 1, Line.bucket [0x00] 2 1] ∧
      in_order (scenario_tree.buckets.foldl (insert_by_size rb_insert_color_rotate 1)
          RB_ROOT) =
        in_order (scenario_tree_reordered.buckets.foldl
          (insert_by_size rb_insert_color_rotate 1) RB_ROOT) ∧
      ∀ g : Globals,
        (print_by_size
            { g with
              by_size := sort_by_size rb_insert_color_rotate 1 scenario_tree RB_ROOT }).1 =
          (print_by_size
            { g with
              by_size :=
                sort_by_size rb_insert_color_rotate 1 scenario_tree_reordered RB_ROOT }).1 :=
  have h := ranking_independent_of_enumeration rb_insert_color_rotate
    in_order_rb_insert_color_rotate 1 scenario_tree scenario_tree_reordered
    (by decide) (by decide) (by decide)
  ⟨by decide, h.1, h.2.2⟩

/-! ### C11 -/

/-- C11: two builds of the same hash tree (pairwise distinct hashes of
`digest_len` bytes), each from the empty `by_size` index `RB_ROOT` as `main`
starts it, have element-wise identical full traversals, whatever rebalancing
steps each build takes; so `print_by_size` writes the same rows after
either. -/
theorem sort_by_size_from_RB_ROOT_repeatable
    (rb1 rb2 : dupe_blocks_list → rb_node → rb_node)
    (hreb1 : ∀ d t, in_order (rb1 d t) = in_order t)
    (hreb2 : ∀ d t, in_order (rb2 d t) = in_order t)
    (digest_len : Nat) (tree : hash_tree)
    (hlen : ∀ b ∈ tree.buckets, b.dl_hash.length = digest_len)
    (hdistinct : tree.buckets.Pairwise (fun a b => a.dl_hash ≠ b.dl_hash)) :
    in_order (sort_by_size rb1 digest_len tree RB_ROOT) =
        in_order (sort_by_size rb2 digest_len tree RB_ROOT) ∧
      ∀ g : Globals,
        (print_by_size { g with by_size := sort_by_size rb1 digest_len tree RB_ROOT }).1 =
          (print_by_size { g with by_size := sort_by_size rb2 digest_len tree RB_ROOT }).1 := by
  have h := in_order_sort_by_size_of_perm rb1 rb2 hreb1 hreb2 digest_len tree tree
    (List.Perm.refl _) hlen hdistinct
  exact ⟨h, fun g => print_by_size_of_in_order g _ _ h⟩

/-- C11 at the scenario of section 8, built once with rotations and once
without rebalancing: the same traversal `0x01`, `0x02`, `0x00`. -/
theorem sort_by_size_from_RB_ROOT_repeatable_witness :
    (in_order (sort_by_size rb_insert_color_rotate 1 scenario_tree RB_ROOT)).map bucket_line =
        [Line.bucket [0x01] 5 1, Line.bucket [0x02] 5 1, Line.bucket [0x00] 2 1] ∧
      in_order (sort_by_size rb_insert_color_rotate 1 scenario_tree RB_ROOT) =
        in_order (sort_by_size (fun _ t => t) 1 scenario_tree RB_ROOT) :=
  have h := sort_by_size_from_RB_ROOT_repeatable rb_insert_color_rotate (fun _ t => t)
    in_order_rb_insert_color_rotate (fun _ _ => rfl) 1 scenario_tree (by decide) (by decide)
  ⟨by decide, h.1⟩

/-! ### C14 -/

theorem memory.store_frame (m : memory) (p : rb_link) (v : Option Nat) :
    (m.store p v).tree_root = m.tree_root ∧
      ∀ i, ((m.store p v).cell i).contents = (m.cell i).contents ∧
        ((m.store p v).cell i).dl_node = (m.cell i).dl_node := by
  cases p with
  | root => exact ⟨rfl, fun i => ⟨rfl, rfl⟩⟩
  | left j =>
    refine ⟨rfl, fun i => ?_⟩
    simp only [memory.store, Function.update_apply]
    split_ifs with h
    · subst h; exact ⟨rfl, rfl⟩
    · exact ⟨rfl, rfl⟩
  | right j =>
    refine ⟨rfl, fun i => ?_⟩
    simp only [memory.store, Function.update_apply]
    split_ifs with h
    · subst h; exact ⟨rfl, rfl⟩
    · exact ⟨rfl, rfl⟩

theorem memory.rb_link_node_frame (m : memory) (dups : Nat) (parent : Option Nat)
    (p : rb_link) :
    (m.rb_link_node dups parent p).tree_root = m.tree_root ∧
      ∀ i, ((m.rb_link_node dups parent p).cell i).contents = (m.cell i).contents ∧
        ((m.rb_link_node dups parent p).cell i).dl_node = (m.cell i).dl_node := by
  unfold memory.rb_link_node
  refine ⟨(memory.store_frame _ p _).1, fun i => ?_⟩
  rw [((memory.store_frame _ p (some dups)).2 i).1, ((memory.store_frame _ p (some dups)).2 i).2]
  simp only [Function.update_apply]
  split_ifs with h
  · subst h; exact ⟨rfl, rfl⟩
  · exact ⟨rfl, rfl⟩

/-- The stand-in `rb_insert_color_root_black` writes a colour of a node
`dl_by_size` and nothing else. -/
theorem rb_insert_color_root_black_frame (m : memory) (d : Nat) :
    (rb_insert_color_root_black m d).tree_root = m.tree_root ∧
      ∀ i, ((rb_insert_color_root_black m d).cell i).contents = (m.cell i).contents ∧
        ((rb_insert_color_root_black m d).cell i).dl_node = (m.cell i).dl_node := by
  unfold rb_insert_color_root_black
  split_ifs with hp
  · refine ⟨rfl, fun i => ?_⟩
    simp only [Function.update_apply]
    split_ifs with h
    · subst h; exact ⟨rfl, rfl⟩
    · exact ⟨rfl, rfl⟩
  · exact ⟨rfl, fun i => ⟨rfl, rfl⟩⟩

/-- One step of `sort_by_size` writes neither the root of the primary index
nor, in any bucket, the contents or the node `dl_node`, if `rb_insert_color`
does not. -/
theorem sort_by_size_step_frame
    (rb_insert_color : memory → Nat → memory)
    (hrb : ∀ m d, (rb_insert_color m d).tree_root = m.tree_root ∧
      ∀ i, ((rb_insert_color m d).cell i).contents = (m.cell i).contents ∧
        ((rb_insert_color m d).cell i).dl_node = (m.cell i).dl_node)
    (digest_len : Nat) (s : build_state) :
    (sort_by_size_step rb_insert_color digest_len s).mem.tree_root = s.mem.tree_root ∧
      ∀ i, ((sort_by_size_step rb_insert_color digest_len s).mem.cell i).contents =
          (s.mem.cell i).contents ∧
        ((sort_by_size_step rb_insert_color digest_len s).mem.cell i).dl_node =
          (s.mem.cell i).dl_node := by
  have hlink : ∀ (dups : Nat) (parent : Option Nat) (p : rb_link),
      (rb_insert_color (s.mem.rb_link_node dups parent p) dups).tree_root = s.mem.tree_root ∧
        ∀ i, ((rb_insert_color (s.mem.rb_link_node dups parent p) dups).cell i).contents =
            (s.mem.cell i).contents ∧
          ((rb_insert_color (s.mem.rb_link_node dups parent p) dups).cell i).dl_node =
            (s.mem.cell i).dl_node := by
    intro dups parent p
    have h1 := hrb (s.mem.rb_link_node dups parent p) dups
    have h2 := memory.rb_link_node_frame s.mem dups parent p
    exact ⟨h1.1.trans h2.1, fun i => ⟨(h1.2 i).1.trans (h2.2 i).1, (h1.2 i).2.trans (h2.2 i).2⟩⟩
  unfold sort_by_size_step
  split
  · split
    · exact ⟨rfl, fun i => ⟨rfl, rfl⟩⟩
    · exact ⟨rfl, fun i => ⟨rfl, rfl⟩⟩
  · rename_i dups p parent _
    split
    · exact hlink dups parent p
    · rename_i j _
      simp only
      split_ifs
      · exact ⟨rfl, fun i => ⟨rfl, rfl⟩⟩
      · exact ⟨rfl, fun i => ⟨rfl, rfl⟩⟩
      · exact hlink dups (some j) p

/-- The frame of one step, carried over any number of steps. -/
theorem sort_by_size_run_frame
    (rb_insert_color : memory → Nat → memory)
    (hrb : ∀ m d, (rb_insert_color m d).tree_root = m.tree_root ∧
      ∀ i, ((rb_insert_color m d).cell i).contents = (m.cell i).contents ∧
        ((rb_insert_color m d).cell i).dl_node = (m.cell i).dl_node)
    (digest_len : Nat) :
    ∀ (k : Nat) (s : build_state),
      (sort_by_size_run rb_insert_color digest_len k s).mem.tree_root = s.mem.tree_root ∧
        ∀ i, ((sort_by_size_run rb_insert_color digest_len k s).mem.cell i).contents =
            (s.mem.cell i).contents ∧
          ((sort_by_size_run rb_insert_color digest_len k s).mem.cell i).dl_node =
            (s.mem.cell i).dl_node
  | 0, _ => ⟨rfl, fun _ => ⟨rfl, rfl⟩⟩
  | k + 1, s => by
    have hstep := sort_by_size_step_frame rb_insert_color hrb digest_len s
    have ih := sort_by_size_run_frame rb_insert_color hrb digest_len k
      (sort_by_size_step rb_insert_color digest_len s)
    rw [sort_by_size_run]
    exact ⟨ih.1.trans hstep.1,
      fun i => ⟨(ih.2 i).1.trans (hstep.2 i).1, (ih.2 i).2.trans (hstep.2 i).2⟩⟩

/-- Once the loop of `sort_by_size` has ended, further steps change
nothing. -/
theorem sort_by_size_run_of_finished
    (rb_insert_color : memory → Nat → memory)
    (digest_len : Nat) :
    ∀ (k : Nat) (s : build_state), s.finished →
      sort_by_size_run rb_insert_color digest_len k s = s
  | 0, _, _ => rfl
  | k + 1, s, h => by
    have hstep : sort_by_size_step rb_insert_color digest_len s = s := by
      obtain ⟨h1, h2⟩ := h
      unfold sort_by_size_step
      rw [h1, h2]
    rw [sort_by_size_run, hstep]
    exact sort_by_size_run_of_finished rb_insert_color digest_len k s h

/-- C14: for every memory, every order in which the primary index yields its
buckets and every point `k` a run of `sort_by_size` reaches, the point at which
it has ended among them: the root of the primary index is what it was, and
every bucket has its `dl_hash`, `dl_num_elem`, `dl_num_files`, `dl_list` and
its node `dl_node` of the primary tree as before.  The writes of the run are
confined to the nodes `dl_by_size` and the root `by_size`.  Of
`rb_insert_color`, of rbtree.c, it is taken that it writes nodes of the tree
it is called on only. -/
theorem sort_by_size_writes_by_size_only
    (rb_insert_color : memory → Nat → memory)
    (hrb : ∀ m d, (rb_insert_color m d).tree_root = m.tree_root ∧
      ∀ i, ((rb_insert_color m d).cell i).contents = (m.cell i).contents ∧
        ((rb_insert_color m d).cell i).dl_node = (m.cell i).dl_node)
    (digest_len : Nat) (k : Nat) (s : build_state) :
    (sort_by_size_run rb_insert_color digest_len k s).mem.tree_root = s.mem.tree_root ∧
      ∀ i,
        ((sort_by_size_run rb_insert_color digest_len k s).mem.cell i).contents.dl_hash =
            (s.mem.cell i).contents.dl_hash ∧
          ((sort_by_size_run rb_insert_color digest_len k s).mem.cell i).contents.dl_num_elem =
            (s.mem.cell i).contents.dl_num_elem ∧
          ((sort_by_size_run rb_insert_color digest_len k s).mem.cell i).contents.dl_num_files =
            (s.mem.cell i).contents.dl_num_files ∧
          ((sort_by_size_run rb_insert_color digest_len k s).mem.cell i).contents.dl_list =
            (s.mem.cell i).contents.dl_list ∧
          ((sort_by_size_run rb_insert_color digest_len k s).mem.cell i).dl_node =
            (s.mem.cell i).dl_node := by
  have h := sort_by_size_run_frame rb_insert_color hrb digest_len k s
  refine ⟨h.1, fun i => ?_⟩
  obtain ⟨hc, hn⟩ := h.2 i
  rw [hc]
  exact ⟨rfl, rfl, rfl, rfl, hn⟩

/-- C14 at the scenario of section 8 in memory: after nine steps the loop of
`sort_by_size` has ended; `by_size` points at the bucket `0x00`, whose node is
black and has the bucket `0x01` to its left, which has the bucket `0x02` to its
right; the traversal of that tree is the one of the build on values; and the
primary root, the contents and the nodes `dl_node` are those of the start. -/
theorem sort_by_size_writes_by_size_only_witness :
    ((sort_by_size_run rb_insert_color_root_black 1 9 scenario_start).call = none ∧
        (sort_by_size_run rb_insert_color_root_black 1 9 scenario_start).rest = []) ∧
      (sort_by_size_run rb_insert_color_root_black 1 9 scenario_start).mem.by_size = some 2 ∧
      ((sort_by_size_run rb_insert_color_root_black 1 9 scenario_start).mem.cell 2).dl_by_size =
        ⟨none, rb_color.RB_BLACK, some 0, none⟩ ∧
      ((sort_by_size_run rb_insert_color_root_black 1 9 scenario_start).mem.cell 0).dl_by_size =
        ⟨some 2, rb_color.RB_RED, none, some 1⟩ ∧
      ((sort_by_size_run rb_insert_color_root_black 1 9 scenario_start).mem.cell 1).dl_by_size =
        ⟨some 0, rb_color.RB_RED, none, none⟩ ∧
      (sort_by_size_run rb_insert_color_root_black 1 9 scenario_start).mem.in_order 3
          (sort_by_size_run rb_insert_color_root_black 1 9 scenario_start).mem.by_size =
        in_order (sort_by_size (fun _ t => t) 1 scenario_tree RB_ROOT) ∧
      (sort_by_size_run rb_insert_color_root_black 1 9 scenario_start).mem.tree_root =
        scenario_start.mem.tree_root ∧
      ∀ i,
        ((sort_by_size_run rb_insert_color_root_black 1 9 scenario_start).mem.cell i).contents.dl_hash =
            (scenario_start.mem.cell i).contents.dl_hash ∧
          ((sort_by_size_run rb_insert_color_root_black 1 9 scenario_start).mem.cell i).contents.dl_num_elem =
            (scenario_start.mem.cell i).contents.dl_num_elem ∧
          ((sort_by_size_run rb_insert_color_root_black 1 9 scenario_start).mem.cell i).contents.dl_num_files =
            (scenario_start.mem.cell i).contents.dl_num_files ∧
          ((sort_by_size_run rb_insert_color_root_black 1 9 scenario_start).mem.cell i).contents.dl_list =
            (scenario_start.mem.cell i).contents.dl_list ∧
          ((sort_by_size_run rb_insert_color_root_black 1 9 scenario_start).mem.cell i).dl_node =
            (scenario_start.mem.cell i).dl_node :=
  have h := sort_by_size_writes_by_size_only rb_insert_color_root_black
    rb_insert_color_root_black_frame 1 9 scenario_start
  ⟨by decide, by decide, by decide, by decide, by decide, by decide, h.1, h.2⟩

end Hashstats
